import Mathlib

/-
Verification of the gotlai translation-orchestration core.

This file gives a shallow embedding, in Lean 4, of the parts of the
gotlai repository that the checked properties are about:

- the data model (TextNode, TranslateRequest, ProcessedContent),
- the orchestrator (translator.go: Process, translateBatch, isSourceLang),
- the parallel cache-lookup path (parallel.go: ParallelCacheLookup,
  TranslateBatchParallel),
- the diff engine (diff.go: DiffContent, DiffContentWithContext),
- the retry wrapper (retry.go: WithRetry, IsRetryable),
- the token-bucket rate limiter (ratelimit.go),
- the response length check of the OpenAI provider (toStringSlice).

Modelling conventions: Go maps are embedded as association lists keyed
by String, with insert-overwrite semantics (mapUpd) and key lookup
(lookupKey); where Go iterates over a map, the embedding iterates in
first-insertion order, which determinizes the iteration.  The cache is
embedded as a pure read function (String to Option String); the `Set`
write-backs of one call only affect later calls and their errors are
discarded by the code, so they are not part of the state observed by
any property here.  The AI provider is a function from a request to
`Except GoError (List String)`; a context is a Boolean cancellation
flag.  Go float64 time and token arithmetic of the rate limiter is
embedded over the rationals.  A Go runtime panic (out-of-range slice
index) is a distinct `GoResult.panic` outcome.
-/

namespace Gotlai

/-! ## List helpers used to embed Go maps and sets -/

/-- Membership test for a list of strings (embeds a Go set of strings). -/
def memStr (key : String) : List String → Bool
  | [] => false
  | x :: rest => if x = key then true else memStr key rest

/-- Membership test for a list of natural numbers (embeds a Go set of indices). -/
def memNat (key : Nat) : List Nat → Bool
  | [] => false
  | x :: rest => if x = key then true else memNat key rest

/-- Key membership in an association list (embeds a Go map key test). -/
def hasKey {α : Type} : List (String × α) → String → Bool
  | [], _ => false
  | p :: rest, key => if p.1 = key then true else hasKey rest key

/-- Lookup in an association list (embeds a Go map read). -/
def lookupKey {α : Type} : List (String × α) → String → Option α
  | [], _ => none
  | p :: rest, key => if p.1 = key then some p.2 else lookupKey rest key

/-- Insert-or-overwrite in an association list (embeds a Go map write:
new keys are appended, so iteration order is first-insertion order). -/
def mapUpd {α : Type} (m : List (String × α)) (key : String) (val : α) :
    List (String × α) :=
  if hasKey m key then m.map (fun p => if p.1 = key then (key, val) else p)
  else m ++ [(key, val)]

/-! ## Data model (types.go) -/

/-- TextNode represents a translatable unit of content (types.go). -/
structure TextNode where
  id : String
  text : String
  hash : String
  nodeType : String
  context : String
  metadata : List (String × String)
  deriving Repr, DecidableEq

/-- TranslateRequest contains the parameters for a translation request
(translator.go). -/
structure TranslateRequest where
  texts : List String
  targetLang : String
  sourceLang : String
  excludedTerms : List String
  context : String
  textContexts : List String
  glossary : List (String × String)
  style : String
  deriving Repr, DecidableEq

/-- ProcessedContent is the result of a translation operation (types.go). -/
structure ProcessedContent where
  content : String
  translatedCount : Nat
  cachedCount : Nat
  totalNodes : Nat
  deriving Repr, DecidableEq

/-- GoError embeds the error taxonomy of the repository: ProviderError
(with its Retryable flag), CountMismatchError, ProcessorError, CacheError,
TranslationError, and the two context conditions. -/
inductive GoError where
  | providerError (message : String) (retryable : Bool)
  | countMismatchError (expected got : Nat)
  | processorError (message contentType : String)
  | cacheError (message : String)
  | translationError (message : String)
  | contextCanceled
  | deadlineExceeded
  deriving Repr, DecidableEq

/-- GoResult distinguishes a normal return, an error return, and a Go
runtime panic (such as an out-of-range slice index). -/
inductive GoResult (α : Type) where
  | ok (val : α)
  | err (e : GoError)
  | panic (message : String)
  deriving Repr, DecidableEq

/-! ## Fingerprint keys (hash.go) -/

/-- CacheKey generates a cache key from a text hash and target language
(hash.go). -/
def CacheKey (hash targetLang : String) : String :=
  hash ++ ":" ++ targetLang

/-- CacheKeyExtended generates an extended cache key including source
language and model (hash.go). -/
def CacheKeyExtended (hash sourceLang targetLang model : String) : String :=
  hash ++ ":" ++ sourceLang ++ ":" ++ targetLang ++ ":" ++ model

/-! ## Language normalization (translator.go) -/

/-- First element of a list of strings, with the fallback Go would take
on an empty split result; strings.Split never returns an empty slice,
so the fallback is unreachable on the outputs of the split below. -/
def headOrSelf : List String → String → String
  | [], s => s
  | p :: _, _ => p

/-- Character-level worker of the underscore split. -/
def splitOnUnderscoreAux : List Char → List Char → List String
  | [], acc => [String.mk acc.reverse]
  | c :: rest, acc =>
    if c = '_' then String.mk acc.reverse :: splitOnUnderscoreAux rest []
    else splitOnUnderscoreAux rest (c :: acc)

/-- Embedding of strings.Split(lang, underscore): the list of segments
between underscores, never empty. -/
def splitOnUnderscore (s : String) : List String :=
  splitOnUnderscoreAux s.data []

/-- Embedding of strings.ToLower at the character level; language tags
are ASCII, where Char.toLower agrees with the Go Unicode lowering. -/
def toLowerStr (s : String) : String :=
  String.mk (s.data.map Char.toLower)

/-- normalizeBaseLang extracts the lowercased base language code, for
example en from en_US (translator.go). -/
def normalizeBaseLang (lang : String) : String :=
  toLowerStr (headOrSelf (splitOnUnderscore lang) lang)

/-! ## Orchestrator (translator.go)

The AI provider of the Translator is a function from a request to a
result; the content processor carries Extract and Apply as functions,
with the opaque parsed form embedded as a String passed through
unchanged.  The cache is its Get function. -/

/-- AIProvider contract: Translate(ctx, req) returning texts or an error.
The cancellation context is irrelevant to the properties checked at this
level and is omitted from the function type. -/
def AIProvider : Type :=
  TranslateRequest → Except GoError (List String)

/-- TranslationCache contract, as its read function: Get(key). -/
def CacheGet : Type :=
  String → Option String

/-- ContentProcessor contract (translator.go): Extract, Apply, and the
content type used as registry key. -/
structure ContentProcessor where
  contentType : String
  extract : String → Except GoError (String × List TextNode)
  apply : String → List TextNode → List (String × String) → Except GoError String

/-- Translator is the main translation engine (translator.go). -/
structure Translator where
  targetLang : String
  sourceLang : String
  provider : Option AIProvider
  cache : Option CacheGet
  excludedTerms : List String
  context : String
  glossary : List (String × String)
  style : String
  processors : List (String × ContentProcessor)

/-- isSourceLang checks if target matches source after stripping the
region suffix and lowercasing (translator.go). -/
def isSourceLang (t : Translator) : Bool :=
  decide (normalizeBaseLang t.targetLang = normalizeBaseLang t.sourceLang)

/-- Accumulator of the cache-check loop of translateBatch: the
fingerprint-to-translation map, the deduplicated miss list, the set of
hashes already appended to the miss list, and the cache-hit counter. -/
structure BatchProbe where
  translations : List (String × String)
  cacheMisses : List TextNode
  seenHashes : List String
  cachedCount : Nat
  deriving Repr

/-- Miss branch of the cache-check loop: append the node to the miss
list only on the first occurrence of its hash (translator.go). -/
def missStep (acc : BatchProbe) (node : TextNode) : BatchProbe :=
  if memStr node.hash acc.seenHashes then acc
  else { acc with
          cacheMisses := acc.cacheMisses ++ [node],
          seenHashes := acc.seenHashes ++ [node.hash] }

/-- One iteration of the cache-check loop of translateBatch: a cache hit
records the translation and the hit; otherwise the node is a
deduplicated miss (translator.go). -/
def probeStep (t : Translator) (acc : BatchProbe) (node : TextNode) : BatchProbe :=
  match t.cache with
  | some get =>
    match get (CacheKey node.hash t.targetLang) with
    | some cached =>
      { acc with
          translations := mapUpd acc.translations node.hash cached,
          cachedCount := acc.cachedCount + 1 }
    | none => missStep acc node
  | none => missStep acc node

/-- The cache-check loop of translateBatch over all nodes. -/
def batchProbeLoop (t : Translator) : List TextNode → BatchProbe → BatchProbe
  | [], acc => acc
  | node :: rest, acc => batchProbeLoop t rest (probeStep t acc node)

/-- The cache-check phase of translateBatch, started from the empty state. -/
def batchProbe (t : Translator) (nodes : List TextNode) : BatchProbe :=
  batchProbeLoop t nodes { translations := [], cacheMisses := [], seenHashes := [], cachedCount := 0 }

/-- The request translateBatch sends to the provider for its cache
misses, carrying the translator-level configuration (translator.go). -/
def buildRequest (t : Translator) (misses : List TextNode) : TranslateRequest :=
  { texts := misses.map (·.text)
    targetLang := t.targetLang
    sourceLang := t.sourceLang
    excludedTerms := t.excludedTerms
    context := t.context
    textContexts := misses.map (·.context)
    glossary := t.glossary
    style := t.style }

/-- The result loop of translateBatch: store result i under the hash of
miss i.  The caller guarantees results has at least as many entries as
misses; extra results are ignored, as the Go loop indexes results by
the miss position only. -/
def applyResults (translations : List (String × String))
    (misses : List TextNode) (results : List String) : List (String × String) :=
  match misses, results with
  | [], _ => translations
  | _ :: _, [] => translations
  | node :: restM, r :: restR => applyResults (mapUpd translations node.hash r) restM restR

/-- translateBatch translates nodes, using cache where possible
(translator.go).  The first component is the returned triple
(translations, cachedCount, translatedCount) or the error; the second
component is the list of requests dispatched to the provider, recording
backend invocations.  A result slice shorter than the miss list would
make the Go result loop index out of range, which is a panic. -/
def translateBatch (t : Translator) (nodes : List TextNode) :
    GoResult (List (String × String) × Nat × Nat) × List TranslateRequest :=
  match t.provider with
  | some translate =>
    if (batchProbe t nodes).cacheMisses.length ≠ 0 then
      match translate (buildRequest t (batchProbe t nodes).cacheMisses) with
      | .error e => (.err e, [buildRequest t (batchProbe t nodes).cacheMisses])
      | .ok results =>
        if results.length < (batchProbe t nodes).cacheMisses.length then
          (.panic "index out of range", [buildRequest t (batchProbe t nodes).cacheMisses])
        else
          (.ok (applyResults (batchProbe t nodes).translations
                  (batchProbe t nodes).cacheMisses results,
                (batchProbe t nodes).cachedCount,
                (batchProbe t nodes).cacheMisses.length),
           [buildRequest t (batchProbe t nodes).cacheMisses])
    else (.ok ((batchProbe t nodes).translations, (batchProbe t nodes).cachedCount, 0), [])
  | none => (.ok ((batchProbe t nodes).translations, (batchProbe t nodes).cachedCount, 0), [])

/-- Processor registry lookup of Process (translator.go). -/
def lookupProcessor : List (String × ContentProcessor) → String → Option ContentProcessor
  | [], _ => none
  | p :: rest, key => if p.1 = key then some p.2 else lookupProcessor rest key

/-- Process translates content of the specified type (translator.go).
The goquery mutation of setHTMLAttributes is abstracted as the function
argument setAttrs; the second component records the requests dispatched
to the backend. -/
def Process (t : Translator) (setAttrs : String → String)
    (content contentType : String) :
    GoResult ProcessedContent × List TranslateRequest :=
  if isSourceLang t then
    (.ok { content := content, translatedCount := 0, cachedCount := 0, totalNodes := 0 }, [])
  else
    match lookupProcessor t.processors contentType with
    | none =>
      (.err (.processorError "no processor registered for content type" contentType), [])
    | some processor =>
      match processor.extract content with
      | .error e => (.err e, [])
      | .ok (parsed, nodes) =>
        if nodes.length = 0 then
          (.ok { content := content, translatedCount := 0, cachedCount := 0, totalNodes := 0 }, [])
        else
          match translateBatch t nodes with
          | (.err e, reqs) => (.err e, reqs)
          | (.panic m, reqs) => (.panic m, reqs)
          | (.ok (translations, cachedCount, translatedCount), reqs) =>
            match processor.apply parsed nodes translations with
            | .error e => (.err e, reqs)
            | .ok result =>
              (.ok { content := if contentType = "html" then setAttrs result else result,
                     translatedCount := translatedCount,
                     cachedCount := cachedCount, totalNodes := nodes.length },
               reqs)

/-! ## Translation reinsertion at the unit level (processor/html.go)

The Apply step of the HTML processor walks the document and, for every
text node whose trimmed text hashes to a key of the translations map,
substitutes the translated value; text whose hash is absent from the
map is left unchanged.  At the level of the extracted units this is the
following per-unit substitution. -/

/-- The text a unit carries after Apply: the translated value when the
map has the unit fingerprint, the original text otherwise. -/
def applyNodeText (translations : List (String × String)) (node : TextNode) : String :=
  match lookupKey translations node.hash with
  | some translated => translated
  | none => node.text

/-- Apply over a list of units: every unit receives the value stored
under its fingerprint, so units sharing a fingerprint receive the same
translated text. -/
def applyTranslationsToNodes (nodes : List TextNode)
    (translations : List (String × String)) : List String :=
  nodes.map (applyNodeText translations)

/-! ## Retry with exponential backoff (retry.go) -/

/-- RetryConfig holds configuration for retry behavior (retry.go);
delays are in nanoseconds, as Go time.Duration. -/
structure RetryConfig where
  maxRetries : Nat
  baseDelay : Nat
  maxDelay : Nat
  deriving Repr, DecidableEq

/-- DefaultRetryConfig returns sensible defaults for retry behavior
(retry.go): 3 retries, 1 second base delay, 30 seconds maximum delay. -/
def DefaultRetryConfig : RetryConfig :=
  { maxRetries := 3, baseDelay := 1000000000, maxDelay := 30000000000 }

/-- IsRetryable checks if an error is retryable (retry.go): only a
ProviderError with its Retryable flag set is; context conditions and
every other error kind are not. -/
def IsRetryable : GoError → Bool
  | .providerError _ retryable => retryable
  | _ => false

/-- Delay before the next attempt after failing attempt number
attempt, counted from 0 (retry.go): min(baseDelay shifted left by
attempt, maxDelay). -/
def retryDelay (cfg : RetryConfig) (attempt : Nat) : Nat :=
  let delay := cfg.baseDelay * (1 <<< attempt)
  if delay > cfg.maxDelay then cfg.maxDelay else delay

/-- The retry loop of WithRetry (retry.go).  The operation is a function
of the attempt number, so that per-attempt outcomes can differ; calls
counts invocations made so far, attemptsLeft is the number of retries
still allowed after the current attempt.  The context check before the
attempt and during the backoff sleep is the ctxDone flag.  The second
component of the result is the total number of invocations of fn. -/
def withRetryLoop {T : Type} (fn : Nat → Except GoError T) (ctxDone : Bool) :
    Nat → Nat → Except GoError T × Nat
  | attemptsLeft, calls =>
    if ctxDone then (.error .contextCanceled, calls)
    else
      match fn calls with
      | .ok v => (.ok v, calls + 1)
      | .error e =>
        if IsRetryable e then
          match attemptsLeft with
          | 0 => (.error e, calls + 1)
          | left + 1 =>
            if ctxDone then (.error .contextCanceled, calls + 1)
            else withRetryLoop fn ctxDone left (calls + 1)
        else (.error e, calls + 1)

/-- WithRetry executes a function with exponential backoff retry
(retry.go): one initial attempt plus up to maxRetries retries, aborting
immediately on success, on a non-retryable error, and on cancellation. -/
def WithRetry {T : Type} (cfg : RetryConfig) (ctxDone : Bool)
    (fn : Nat → Except GoError T) : Except GoError T × Nat :=
  withRetryLoop fn ctxDone cfg.maxRetries 0

/-- Translate of RetryableProvider (retry.go): WithRetry around the
wrapped provider, whose per-invocation outcomes are the sequence fn. -/
def RetryableProviderTranslate (cfg : RetryConfig) (ctxDone : Bool)
    (fn : Nat → Except GoError (List String)) : Except GoError (List String) × Nat :=
  WithRetry cfg ctxDone fn

/-! ## Response count check of the OpenAI provider (provider/openai.go) -/

/-- A decoded JSON array element of the model response: a string, or any
other value carried as its formatted representation. -/
inductive JSONValue where
  | str (s : String)
  | other (formatted : String)
  deriving Repr, DecidableEq

/-- Conversion Go applies to each element: strings pass through, any
other value is formatted. -/
def jsonValueToString : JSONValue → String
  | .str s => s
  | .other formatted => formatted

/-- toStringSlice (provider/openai.go): convert the decoded array and
fail with a CountMismatchError when its length differs from the number
of requested texts. -/
def toStringSlice (arr : List JSONValue) (expectedCount : Nat) :
    Except GoError (List String) :=
  let result := arr.map jsonValueToString
  if result.length ≠ expectedCount then
    .error (.countMismatchError expectedCount result.length)
  else
    .ok result

/-! ## Parallel cache lookup (parallel.go)

The fan-out launches one goroutine per unique fingerprint; every
goroutine probes a distinct key and reports one result, so the
collected hit map and miss set are determined by the input, and the
embedding evaluates them directly per unique fingerprint in
first-occurrence order. -/

/-- Hashes of the nodes, deduplicated to first occurrence, continuing
from the already seen hashes (the uniqueNodes deduplication of
ParallelCacheLookup). -/
def distinctFrom : List TextNode → List String → List String
  | [], _ => []
  | node :: rest, seen =>
    if memStr node.hash seen then distinctFrom rest seen
    else node.hash :: distinctFrom rest (seen ++ [node.hash])

/-- The distinct fingerprints of a node list in first-occurrence order. -/
def distinctHashes (nodes : List TextNode) : List String :=
  distinctFrom nodes []

/-- The miss-list rebuild loop of ParallelCacheLookup: keep the first
node of every missed hash, preserving the original order. -/
def parallelMissLoop (missedHashes : List String) :
    List TextNode → List TextNode × List String → List TextNode × List String
  | [], acc => acc
  | node :: rest, (misses, seenMisses) =>
    if memStr node.hash missedHashes && !(memStr node.hash seenMisses) then
      parallelMissLoop missedHashes rest (misses ++ [node], seenMisses ++ [node.hash])
    else
      parallelMissLoop missedHashes rest (misses, seenMisses)

/-- ParallelCacheLookup (parallel.go): probe the cache once per unique
fingerprint, returning the hit map and the ordered deduplicated miss
list.  With no cache or no nodes, everything is a miss. -/
def ParallelCacheLookup (cache : Option CacheGet) (nodes : List TextNode)
    (targetLang : String) : List (String × String) × List TextNode :=
  match cache with
  | none => ([], nodes)
  | some get =>
    if nodes.length = 0 then ([], nodes)
    else
      ((distinctHashes nodes).filterMap
         (fun h => (get (CacheKey h targetLang)).map (fun v => (h, v))),
       (parallelMissLoop
          ((distinctHashes nodes).filter (fun h => (get (CacheKey h targetLang)).isNone))
          nodes ([], [])).1)

/-- ParallelTranslator (parallel.go): a Translator plus the minimum
batch size that triggers the parallel lookup. -/
structure ParallelTranslator where
  toTranslator : Translator
  parallelThreshold : Nat

/-- The request of the parallel dispatch path (parallel.go), which does
not carry the glossary and style fields: they keep their Go zero
values. -/
def buildRequestParallel (t : Translator) (misses : List TextNode) : TranslateRequest :=
  { texts := misses.map (·.text)
    targetLang := t.targetLang
    sourceLang := t.sourceLang
    excludedTerms := t.excludedTerms
    context := t.context
    textContexts := misses.map (·.context)
    glossary := []
    style := "" }

/-- TranslateBatchParallel (parallel.go): below the threshold or without
a cache it falls back to the sequential translateBatch; otherwise it
uses the parallel cache lookup, counts one cache hit per unique cached
fingerprint, and dispatches the misses. -/
def TranslateBatchParallel (pt : ParallelTranslator) (nodes : List TextNode) :
    GoResult (List (String × String) × Nat × Nat) × List TranslateRequest :=
  if pt.toTranslator.cache.isNone || nodes.length < pt.parallelThreshold then
    translateBatch pt.toTranslator nodes
  else
    match pt.toTranslator.provider with
    | some translate =>
      if (ParallelCacheLookup pt.toTranslator.cache nodes pt.toTranslator.targetLang).2.length ≠ 0 then
        match translate (buildRequestParallel pt.toTranslator
            (ParallelCacheLookup pt.toTranslator.cache nodes pt.toTranslator.targetLang).2) with
        | .error e =>
          (.err e,
           [buildRequestParallel pt.toTranslator
              (ParallelCacheLookup pt.toTranslator.cache nodes pt.toTranslator.targetLang).2])
        | .ok results =>
          if results.length <
              (ParallelCacheLookup pt.toTranslator.cache nodes pt.toTranslator.targetLang).2.length then
            (.panic "index out of range",
             [buildRequestParallel pt.toTranslator
                (ParallelCacheLookup pt.toTranslator.cache nodes pt.toTranslator.targetLang).2])
          else
            (.ok (applyResults
                    (ParallelCacheLookup pt.toTranslator.cache nodes pt.toTranslator.targetLang).1
                    (ParallelCacheLookup pt.toTranslator.cache nodes pt.toTranslator.targetLang).2
                    results,
                  (ParallelCacheLookup pt.toTranslator.cache nodes pt.toTranslator.targetLang).1.length,
                  (ParallelCacheLookup pt.toTranslator.cache nodes pt.toTranslator.targetLang).2.length),
             [buildRequestParallel pt.toTranslator
                (ParallelCacheLookup pt.toTranslator.cache nodes pt.toTranslator.targetLang).2])
      else
        (.ok ((ParallelCacheLookup pt.toTranslator.cache nodes pt.toTranslator.targetLang).1,
              (ParallelCacheLookup pt.toTranslator.cache nodes pt.toTranslator.targetLang).1.length, 0),
         [])
    | none =>
      (.ok ((ParallelCacheLookup pt.toTranslator.cache nodes pt.toTranslator.targetLang).1,
            (ParallelCacheLookup pt.toTranslator.cache nodes pt.toTranslator.targetLang).1.length, 0),
       [])

/-! ## Diff engine (diff.go) -/

/-- ModifiedNode represents a text node that was modified (diff.go). -/
structure ModifiedNode where
  old : TextNode
  new : TextNode
  deriving Repr, DecidableEq

/-- DiffResult represents the difference between two content versions
(diff.go). -/
structure DiffResult where
  added : List TextNode
  removed : List TextNode
  unchanged : List TextNode
  modified : List ModifiedNode
  deriving Repr, DecidableEq

/-- NeedsTranslation returns the nodes that need to be translated: the
added nodes and the new side of every modified pair (diff.go). -/
def DiffResult.needsTranslation (d : DiffResult) : List TextNode :=
  d.added ++ d.modified.map (·.new)

/-- The hash-indexed map of a node collection (diff.go builds it with a
Go map write per node, so a later node with the same hash overwrites the
stored node). -/
def buildByHash (nodes : List TextNode) : List (String × TextNode) :=
  nodes.foldl (fun m node => mapUpd m node.hash node) []

/-- DiffContent compares two sets of text nodes (diff.go): a fingerprint
present in both maps is unchanged, present only in the old map is
removed, present only in the new map is added; modified is left empty. -/
def DiffContent (oldNodes newNodes : List TextNode) : DiffResult :=
  let oldByHash := buildByHash oldNodes
  let newByHash := buildByHash newNodes
  let unchanged := (oldByHash.filter (fun p => hasKey newByHash p.1)).map (·.2)
  let removed := (oldByHash.filter (fun p => !(hasKey newByHash p.1))).map (·.2)
  let added := (newByHash.filter (fun p => !(hasKey oldByHash p.1))).map (·.2)
  { added := added, removed := removed, unchanged := unchanged, modified := [] }

/-- Candidate test of the second pass of DiffContentWithContext
(diff.go): first the id comparison, then the non-empty-context
comparison, for one removed and one added unit. -/
def matchCandidate (removed added : TextNode) : Bool :=
  if removed.id = added.id then true
  else if removed.context ≠ "" ∧ removed.context = added.context then true
  else false

/-- Index the elements of a list from a starting position. -/
def withIdx {α : Type} (start : Nat) : List α → List (Nat × α)
  | [] => []
  | a :: rest => (start, a) :: withIdx (start + 1) rest

/-- The inner loop of the second pass: scan the added units in order,
skip the already matched ones, and stop at the first one passing the
candidate test (diff.go). -/
def findFirstMatch (removed : TextNode) (matched : List Nat) :
    List (Nat × TextNode) → Option (Nat × TextNode)
  | [] => none
  | (ai, a) :: rest =>
    if memNat ai matched then findFirstMatch removed matched rest
    else if matchCandidate removed a then some (ai, a)
    else findFirstMatch removed matched rest

/-- The outer loop of the second pass of DiffContentWithContext: for
each removed unit in order, pair it with the first unmatched added unit
passing the candidate test, recording the pair and both indices
(diff.go). -/
def secondPassLoop (addedIdx : List (Nat × TextNode)) :
    List (Nat × TextNode) →
    List ModifiedNode × List Nat × List Nat →
    List ModifiedNode × List Nat × List Nat
  | [], acc => acc
  | (ri, r) :: rest, (modified, matched, removedMatched) =>
    match findFirstMatch r matched addedIdx with
    | some (ai, a) =>
      secondPassLoop addedIdx rest
        (modified ++ [{ old := r, new := a }], matched ++ [ai], removedMatched ++ [ri])
    | none => secondPassLoop addedIdx rest (modified, matched, removedMatched)

/-- DiffContentWithContext (diff.go): DiffContent followed by the
second pass that reclassifies matching removed/added pairs as modified
and filters the matched units out of the added and removed lists. -/
def DiffContentWithContext (oldNodes newNodes : List TextNode) : DiffResult :=
  let result := DiffContent oldNodes newNodes
  if 0 < result.added.length ∧ 0 < result.removed.length then
    let pass := secondPassLoop (withIdx 0 result.added) (withIdx 0 result.removed) ([], [], [])
    { added := ((withIdx 0 result.added).filter (fun p => !(memNat p.1 pass.2.1))).map (·.2)
      removed := ((withIdx 0 result.removed).filter (fun p => !(memNat p.1 pass.2.2))).map (·.2)
      unchanged := result.unchanged
      modified := pass.1 }
  else result

/-! ## Rate limiter (ratelimit.go)

Go float64 token and time arithmetic is embedded over the rationals;
time stamps are seconds. -/

/-- RateLimitConfig configures the rate limiter (ratelimit.go). -/
structure RateLimitConfig where
  requestsPerMinute : Int
  burstSize : Int
  deriving Repr, DecidableEq

/-- RateLimiter state (ratelimit.go); the mutex only serializes access
and has no sequential meaning. -/
structure RateLimiter where
  tokens : ℚ
  maxTokens : ℚ
  refillRate : ℚ
  lastRefill : ℚ
  deriving DecidableEq

/-- The effective requests-per-minute value: zero and negative
configurations default to 60 (ratelimit.go). -/
def effectiveRPM (cfg : RateLimitConfig) : ℚ :=
  if (cfg.requestsPerMinute : ℚ) ≤ 0 then 60 else (cfg.requestsPerMinute : ℚ)

/-- The effective burst value: zero and negative configurations default
to the effective RPM (ratelimit.go). -/
def effectiveBurst (cfg : RateLimitConfig) : ℚ :=
  if (cfg.burstSize : ℚ) ≤ 0 then effectiveRPM cfg else (cfg.burstSize : ℚ)

/-- NewRateLimiter creates a new rate limiter (ratelimit.go): the
bucket starts full at the burst size, and the refill rate is the RPM
converted to tokens per second. -/
def NewRateLimiter (cfg : RateLimitConfig) (now : ℚ) : RateLimiter :=
  { tokens := effectiveBurst cfg, maxTokens := effectiveBurst cfg,
    refillRate := effectiveRPM cfg / 60, lastRefill := now }

/-- The token count refill computes before capping: the old count plus
elapsed time times the refill rate (ratelimit.go). -/
def refillRaw (r : RateLimiter) (now : ℚ) : ℚ :=
  r.tokens + (now - r.lastRefill) * r.refillRate

/-- refill adds tokens for the elapsed time and caps at the maximum
(ratelimit.go). -/
def RateLimiter.refill (r : RateLimiter) (now : ℚ) : RateLimiter :=
  { tokens := if refillRaw r now > r.maxTokens then r.maxTokens else refillRaw r now,
    maxTokens := r.maxTokens, refillRate := r.refillRate, lastRefill := now }

/-- TryAcquire attempts to acquire a token without blocking
(ratelimit.go): refill, then take one token when at least one is
available. -/
def RateLimiter.tryAcquire (r : RateLimiter) (now : ℚ) : Bool × RateLimiter :=
  if 1 ≤ (r.refill now).tokens then
    (true, { r.refill now with tokens := (r.refill now).tokens - 1 })
  else (false, r.refill now)

/-- State after a number of consecutive TryAcquire calls at one instant. -/
def RateLimiter.consume (r : RateLimiter) (now : ℚ) : Nat → RateLimiter
  | 0 => r
  | k + 1 => ((r.tryAcquire now).2).consume now k

/-- State after a sequence of TryAcquire calls at arbitrary instants. -/
def RateLimiter.runTrace (r : RateLimiter) : List ℚ → RateLimiter
  | [] => r
  | now :: rest => ((r.tryAcquire now).2).runTrace rest

/-! ## Canonical closed forms of the cache-probe phase

Both the sequential cache-check loop and the parallel lookup resolve,
per distinct fingerprint, to a hit entry or a first-occurrence miss;
the following closed forms express that and are proved equal to both
paths. -/

/-- Hit entries per distinct fingerprint in first-occurrence order,
continuing past the already recorded fingerprints. -/
def canonHits (get : CacheGet) (targetLang : String) :
    List TextNode → List String → List (String × String)
  | [], _ => []
  | n :: rest, hitSeen =>
    match get (CacheKey n.hash targetLang) with
    | some v =>
      if memStr n.hash hitSeen then canonHits get targetLang rest hitSeen
      else (n.hash, v) :: canonHits get targetLang rest (hitSeen ++ [n.hash])
    | none => canonHits get targetLang rest hitSeen

/-- First node of every missed fingerprint in first-occurrence order,
continuing past the already recorded missed fingerprints. -/
def canonMisses (get : CacheGet) (targetLang : String) :
    List TextNode → List String → List TextNode
  | [], _ => []
  | n :: rest, missSeen =>
    match get (CacheKey n.hash targetLang) with
    | some _ => canonMisses get targetLang rest missSeen
    | none =>
      if memStr n.hash missSeen then canonMisses get targetLang rest missSeen
      else n :: canonMisses get targetLang rest (missSeen ++ [n.hash])

/-- Number of nodes, with multiplicity, whose fingerprint hits the cache. -/
def countHits (get : CacheGet) (targetLang : String) : List TextNode → Nat
  | [] => 0
  | n :: rest =>
    (if (get (CacheKey n.hash targetLang)).isSome then 1 else 0) +
      countHits get targetLang rest

/-- The request fields shared by the sequential and the parallel
dispatch path: everything except glossary and style. -/
def reqCore (r : TranslateRequest) :
    List String × String × String × List String × String × List String :=
  (r.texts, r.targetLang, r.sourceLang, r.excludedTerms, r.context, r.textContexts)

/-- Replace the cachedCount component of a successful batch result. -/
def setCachedCount (c : Nat) :
    GoResult (List (String × String) × Nat × Nat) →
    GoResult (List (String × String) × Nat × Nat)
  | .ok (m, _, tc) => .ok (m, c, tc)
  | r => r

/-! ## Concrete fixtures used by counterexamples and witnesses -/

/-- A text unit with fingerprint h1. -/
def nDupA : TextNode :=
  { id := "node-0", text := "Hello", hash := "h1", nodeType := "html_text",
    context := "", metadata := [] }

/-- A second, distinct unit carrying the same fingerprint h1. -/
def nDupB : TextNode :=
  { id := "node-1", text := "Hello", hash := "h1", nodeType := "html_text",
    context := "", metadata := [] }

/-- A removed unit whose id is x and whose context is c. -/
def cR : TextNode :=
  { id := "x", text := "old text", hash := "h0", nodeType := "html_text",
    context := "c", metadata := [] }

/-- An added unit sharing only the context of cR. -/
def cA1 : TextNode :=
  { id := "y", text := "context mate", hash := "h1", nodeType := "html_text",
    context := "c", metadata := [] }

/-- An added unit sharing only the id of cR. -/
def cA2 : TextNode :=
  { id := "x", text := "id mate", hash := "h2", nodeType := "html_text",
    context := "", metadata := [] }

/-- The old unit of the modification-detection example of the claim. -/
def exOld1 : TextNode :=
  { id := "n1", text := "Hello", hash := "h1", nodeType := "html_text",
    context := "", metadata := [] }

/-- The new unit of the modification-detection example of the claim. -/
def exNew1 : TextNode :=
  { id := "n1", text := "Hi", hash := "h3", nodeType := "html_text",
    context := "", metadata := [] }

/-- A translator whose target en_US shares the base tag of its source en. -/
def tEn : Translator :=
  { targetLang := "en_US", sourceLang := "en",
    provider := some (fun req => .ok req.texts), cache := none,
    excludedTerms := [], context := "", glossary := [], style := "neutral",
    processors := [] }

/-- A backend answering every text with Hola. -/
def b6 : AIProvider :=
  fun req => .ok (req.texts.map (fun _ => "Hola"))

/-- A translator without cache whose backend is b6. -/
def t6 : Translator :=
  { targetLang := "es", sourceLang := "en", provider := some b6, cache := none,
    excludedTerms := [], context := "", glossary := [], style := "neutral",
    processors := [] }

/-- Three distinct units sharing the fingerprint h. -/
def n6a : TextNode :=
  { id := "node-0", text := "Hello", hash := "h", nodeType := "html_text",
    context := "", metadata := [] }

/-- Three distinct units sharing the fingerprint h. -/
def n6b : TextNode :=
  { id := "node-1", text := "Hello", hash := "h", nodeType := "html_text",
    context := "c", metadata := [] }

/-- Three distinct units sharing the fingerprint h. -/
def n6c : TextNode :=
  { id := "node-2", text := "Hello", hash := "h", nodeType := "html_text",
    context := "", metadata := [] }

/-- A processor extracting the single unit n6a and applying to the text
done. -/
def pr8 : ContentProcessor :=
  { contentType := "html"
    extract := fun _ => .ok ("parsed", [n6a])
    apply := fun _ _ _ => .ok "applied" }

/-- A translator with the processor pr8 and an echo backend. -/
def t8 : Translator :=
  { targetLang := "es", sourceLang := "en",
    provider := some (fun req => .ok req.texts), cache := none,
    excludedTerms := [], context := "", glossary := [], style := "neutral",
    processors := [("html", pr8)] }

/-- A translator with a registered processor and no backend provider. -/
def t10 : Translator :=
  { targetLang := "es", sourceLang := "en", provider := none, cache := none,
    excludedTerms := [], context := "", glossary := [], style := "neutral",
    processors := [("html", pr8)] }

/-- A cache knowing only the composite key of fingerprint h for target es. -/
def getCx : CacheGet :=
  fun key => if key = "h:es" then some "V" else none

/-- A translator holding the cache getCx and no provider. -/
def tCx : Translator :=
  { targetLang := "es", sourceLang := "en", provider := none, cache := some getCx,
    excludedTerms := [], context := "", glossary := [], style := "neutral",
    processors := [] }

/-- The parallel translator of tCx with threshold 2, so that a two-node
batch takes the parallel path. -/
def ptCx : ParallelTranslator :=
  { toTranslator := tCx, parallelThreshold := 2 }

/-- A cache hitting exactly the composite key of fingerprint h1 for
target es. -/
def get3 : CacheGet :=
  fun key => if key = "h1:es" then some "Hola" else none

/-- A translator with the cache get3 and a backend echoing the texts. -/
def t3 : Translator :=
  { targetLang := "es", sourceLang := "en",
    provider := some (fun req => .ok req.texts), cache := some get3,
    excludedTerms := [], context := "", glossary := [], style := "neutral",
    processors := [] }

/-- The parallel translator of t3 with threshold 1. -/
def pt3 : ParallelTranslator :=
  { toTranslator := t3, parallelThreshold := 1 }

/-- A unit with fingerprint h1, cached in get3. -/
def m1 : TextNode :=
  { id := "node-0", text := "Hello", hash := "h1", nodeType := "html_text",
    context := "", metadata := [] }

/-- A unit with fingerprint h2, missed by get3. -/
def m2 : TextNode :=
  { id := "node-1", text := "World", hash := "h2", nodeType := "html_text",
    context := "", metadata := [] }

end Gotlai

namespace Gotlai

/-! ## Lemmas on the association-list embedding of Go maps -/

theorem hasKey_eq_false_iff {α : Type} (m : List (String × α)) (key : String) :
    hasKey m key = false ↔ ∀ p ∈ m, p.1 ≠ key := by
  induction m with
  | nil => simp [hasKey]
  | cons p rest ih =>
    by_cases h : p.1 = key
    · simp [hasKey, h]
    · simp [hasKey, h, ih]

theorem lookupKey_mem {α : Type} {m : List (String × α)} {key : String} {v : α}
    (h : lookupKey m key = some v) : (key, v) ∈ m := by
  induction m with
  | nil => simp [lookupKey] at h
  | cons p rest ih =>
    by_cases hp : p.1 = key
    · simp only [lookupKey, if_pos hp] at h
      cases h
      cases p with
      | mk a b => cases hp; exact List.mem_cons_self _ _
    · simp only [lookupKey, if_neg hp] at h
      exact List.mem_cons_of_mem _ (ih h)

theorem lookupKey_map_overwrite_ne {α : Type} (m : List (String × α))
    (k key : String) (v : α) (hne : k ≠ key) :
    lookupKey (m.map (fun p => if p.1 = k then (k, v) else p)) key =
      lookupKey m key := by
  induction m with
  | nil => simp
  | cons p rest ih =>
    by_cases hp : p.1 = k
    · have hpkey : p.1 ≠ key := by rw [hp]; exact hne
      simp only [List.map_cons, lookupKey, if_pos hp]
      rw [if_neg hne, if_neg hpkey, ih]
    · simp only [List.map_cons, lookupKey, if_neg hp]
      by_cases hpk : p.1 = key
      · simp [hpk]
      · rw [if_neg hpk, if_neg hpk, ih]

theorem lookupKey_map_overwrite_eq {α : Type} (m : List (String × α))
    (k : String) (v : α) (hk : hasKey m k = true) :
    lookupKey (m.map (fun p => if p.1 = k then (k, v) else p)) k = some v := by
  induction m with
  | nil => simp [hasKey] at hk
  | cons p rest ih =>
    by_cases hp : p.1 = k
    · simp [lookupKey, hp]
    · simp only [hasKey, if_neg hp] at hk
      simp only [List.map_cons, lookupKey, if_neg hp]
      exact ih hk

theorem lookupKey_append_single_eq {α : Type} (m : List (String × α))
    (k : String) (v : α) (hk : hasKey m k = false) :
    lookupKey (m ++ [(k, v)]) k = some v := by
  induction m with
  | nil => simp [lookupKey]
  | cons p rest ih =>
    by_cases hp : p.1 = k
    · simp [hasKey, hp] at hk
    · simp only [hasKey, if_neg hp] at hk
      simp only [List.cons_append, lookupKey, if_neg hp]
      exact ih hk

theorem lookupKey_append_single_ne {α : Type} (m : List (String × α))
    (k key : String) (v : α) (hne : k ≠ key) :
    lookupKey (m ++ [(k, v)]) key = lookupKey m key := by
  induction m with
  | nil => simp [lookupKey, hne]
  | cons p rest ih =>
    by_cases hp : p.1 = key
    · simp [lookupKey, hp]
    · simp only [List.cons_append, lookupKey, if_neg hp]
      exact ih

/-- Reading a Go map after a write: the written key returns the written
value, any other key is unaffected. -/
theorem lookupKey_mapUpd {α : Type} (m : List (String × α)) (k key : String) (v : α) :
    lookupKey (mapUpd m k v) key =
      if k = key then some v else lookupKey m key := by
  unfold mapUpd
  by_cases hk : hasKey m k
  · simp only [hk, if_true]
    by_cases hkey : k = key
    · subst hkey
      rw [if_pos rfl, lookupKey_map_overwrite_eq m k v hk]
    · rw [if_neg hkey, lookupKey_map_overwrite_ne m k key v hkey]
  · simp only [hk, Bool.false_eq_true, if_false]
    by_cases hkey : k = key
    · subst hkey
      rw [if_pos rfl, lookupKey_append_single_eq m k v (by simpa using hk)]
    · rw [if_neg hkey, lookupKey_append_single_ne m k key v hkey]

theorem memStr_append (key : String) (a b : List String) :
    memStr key (a ++ b) = (memStr key a || memStr key b) := by
  induction a with
  | nil => simp [memStr]
  | cons x rest ih =>
    by_cases hx : x = key
    · simp [memStr, hx]
    · simp [memStr, hx, ih]

theorem memStr_filter (p : String → Bool) (key : String) (l : List String) :
    memStr key (l.filter p) = (memStr key l && p key) := by
  induction l with
  | nil => simp [memStr]
  | cons x rest ih =>
    by_cases hx : x = key
    · subst hx
      by_cases hp : p x
      · simp [memStr, List.filter, hp]
      · simp only [List.filter]
        rw [Bool.of_not_eq_true hp]
        simp [memStr, ih, Bool.of_not_eq_true hp]
    · by_cases hp : p x
      · simp [memStr, List.filter, hp, hx, ih]
      · simp only [List.filter]
        rw [Bool.of_not_eq_true hp]
        simp [memStr, ih, hx]

theorem memStr_map_fst {α : Type} (m : List (String × α)) (key : String) :
    memStr key (m.map (·.1)) = hasKey m key := by
  induction m with
  | nil => simp [memStr, hasKey]
  | cons p rest ih =>
    by_cases hp : p.1 = key
    · simp [memStr, hasKey, hp]
    · simp [memStr, hasKey, hp, ih]

theorem hasKey_of_mem {α : Type} {m : List (String × α)} {p : String × α}
    (hp : p ∈ m) : hasKey m p.1 = true := by
  induction m with
  | nil => cases hp
  | cons q rest ih =>
    rcases List.mem_cons.mp hp with h | h
    · subst h; simp [hasKey]
    · by_cases hq : q.1 = p.1
      · simp [hasKey, hq]
      · simp [hasKey, hq, ih h]

theorem map_eq_self_of_mem {α : Type} {l : List α} {f : α → α}
    (h : ∀ a ∈ l, f a = a) : l.map f = l := by
  induction l with
  | nil => rfl
  | cons x rest ih =>
    simp only [List.map_cons]
    rw [h x (List.mem_cons_self _ _), ih (fun a ha => h a (List.mem_cons_of_mem _ ha))]

/-! ## Retry loop lemmas -/

/-- When every invocation fails with a retryable error, the loop runs
through all its attempts and returns the error of the last one. -/
theorem withRetryLoop_all_fail {T : Type} (fn : Nat → Except GoError T)
    (errs : Nat → GoError)
    (hfail : ∀ k, fn k = .error (errs k))
    (hretry : ∀ k, IsRetryable (errs k) = true) :
    ∀ left calls, withRetryLoop fn false left calls =
      (.error (errs (left + calls)), left + calls + 1) := by
  intro left
  induction left with
  | zero =>
    intro calls
    simp [withRetryLoop, hfail calls, hretry calls]
  | succ n ih =>
    intro calls
    have step := ih (calls + 1)
    simp only [withRetryLoop, Bool.false_eq_true, if_false, hfail calls,
      hretry calls, if_true, step]
    have harith : n + (calls + 1) = n + 1 + calls := by omega
    rw [harith]

/-! ## C7: retry invocation count -/

/-- C7: with MaxRetries = N, an operation failing every invocation with
a retryable error is invoked exactly N + 1 times through WithRetry
(hence through Translate of RetryableProvider), and the error of the
last attempt is returned; a successful first result returns immediately
after a single invocation. -/
theorem c7_retry_invocation_count (cfg : RetryConfig) :
    (∀ (fn : Nat → Except GoError (List String)) (errs : Nat → GoError),
      (∀ k, fn k = .error (errs k)) →
      (∀ k, IsRetryable (errs k) = true) →
      RetryableProviderTranslate cfg false fn =
        (.error (errs cfg.maxRetries), cfg.maxRetries + 1))
    ∧ (∀ (fn : Nat → Except GoError (List String)) (v : List String),
        fn 0 = .ok v →
        RetryableProviderTranslate cfg false fn = (.ok v, 1)) := by
  constructor
  · intro fn errs hfail hretry
    have h := withRetryLoop_all_fail fn errs hfail hretry cfg.maxRetries 0
    simpa [RetryableProviderTranslate, WithRetry] using h
  · intro fn v hok
    simp [RetryableProviderTranslate, WithRetry, withRetryLoop, hok]

/-- Witness for C7 at MaxRetries = 2: the always-failing operation is
invoked exactly 3 times and the call fails with the last error, while a
first-try success returns after one invocation. -/
theorem c7_witness :
    RetryableProviderTranslate
        { maxRetries := 2, baseDelay := 1000000000, maxDelay := 30000000000 } false
        (fun _ => .error (.providerError "rate limit" true)) =
      (.error (.providerError "rate limit" true), 3)
    ∧ RetryableProviderTranslate
        { maxRetries := 2, baseDelay := 1000000000, maxDelay := 30000000000 } false
        (fun _ => .ok ["hola"]) =
      (.ok ["hola"], 1) :=
  ⟨(c7_retry_invocation_count _).1 _ (fun _ => .providerError "rate limit" true)
      (fun _ => rfl) (fun _ => rfl),
   (c7_retry_invocation_count _).2 _ ["hola"] rfl⟩

/-! ## C1: count-mismatch errors are fatal and unretried -/

/-- C1: a backend response whose decoded result count differs from the
requested count is turned into a CountMismatchError by toStringSlice;
that error kind is not retryable, so WithRetry returns it after exactly
one invocation; and a provider error makes translateBatch fail with
that error, dispatching exactly one request and producing no
translations, and makes Process fail without reaching the Apply step,
so none of the returned results is stored or applied. -/
theorem c1_count_mismatch_fatal :
    (∀ (arr : List JSONValue) (expectedCount : Nat),
      arr.length ≠ expectedCount →
      toStringSlice arr expectedCount =
        .error (.countMismatchError expectedCount arr.length))
    ∧ (∀ expected got, IsRetryable (.countMismatchError expected got) = false)
    ∧ (∀ (cfg : RetryConfig) (fn : Nat → Except GoError (List String)) (expected got : Nat),
        fn 0 = .error (.countMismatchError expected got) →
        WithRetry cfg false fn = (.error (.countMismatchError expected got), 1))
    ∧ (∀ (t : Translator) (nodes : List TextNode) (backend : AIProvider) (e : GoError),
        t.provider = some backend →
        (batchProbe t nodes).cacheMisses.length ≠ 0 →
        backend (buildRequest t (batchProbe t nodes).cacheMisses) = .error e →
        translateBatch t nodes =
          (.err e, [buildRequest t (batchProbe t nodes).cacheMisses]))
    ∧ (∀ (t : Translator) (setAttrs : String → String) (content contentType : String)
        (processor : ContentProcessor) (parsed : String) (nodes : List TextNode)
        (e : GoError) (reqs : List TranslateRequest),
        isSourceLang t = false →
        lookupProcessor t.processors contentType = some processor →
        processor.extract content = .ok (parsed, nodes) →
        nodes.length ≠ 0 →
        translateBatch t nodes = (.err e, reqs) →
        Process t setAttrs content contentType = (.err e, reqs)) := by
  refine ⟨?_, ?_, ?_, ?_, ?_⟩
  · intro arr expectedCount hne
    simp [toStringSlice, hne]
  · intro expected got
    rfl
  · intro cfg fn expected got h0
    cases hmr : cfg.maxRetries with
    | zero => simp [WithRetry, hmr, withRetryLoop, h0, IsRetryable]
    | succ n => simp [WithRetry, hmr, withRetryLoop, h0, IsRetryable]
  · intro t nodes backend e hp hmiss hres
    simp [translateBatch, hp, hmiss, hres]
  · intro t setAttrs content contentType processor parsed nodes e reqs hsl hproc hex hn htb
    simp [Process, hsl, hproc, hex, hn, htb]

/-- Witness for C1: a two-text request whose response decodes to one
string fails with CountMismatchError expected 2 got 1; the error is not
retryable, and one concrete always-mismatching backend makes both the
retry wrapper stop after a single invocation and translateBatch fail
with the error while dispatching exactly one request. -/
theorem c1_witness :
    toStringSlice [.str "hola"] 2 = .error (.countMismatchError 2 1)
    ∧ IsRetryable (.countMismatchError 2 1) = false
    ∧ WithRetry { maxRetries := 3, baseDelay := 1000000000, maxDelay := 30000000000 } false
        (fun _ => (.error (.countMismatchError 2 1) : Except GoError (List String))) =
      (.error (.countMismatchError 2 1), 1)
    ∧ translateBatch
        { targetLang := "es", sourceLang := "en",
          provider := some (fun _ => .error (.countMismatchError 2 1)), cache := none,
          excludedTerms := [], context := "", glossary := [], style := "neutral",
          processors := [] } [nDupA, m2] =
      (.err (.countMismatchError 2 1),
       [buildRequest
          { targetLang := "es", sourceLang := "en",
            provider := some (fun _ => .error (.countMismatchError 2 1)), cache := none,
            excludedTerms := [], context := "", glossary := [], style := "neutral",
            processors := [] } [nDupA, m2]]) :=
  ⟨(c1_count_mismatch_fatal).1 [.str "hola"] 2 (by decide),
   (c1_count_mismatch_fatal).2.1 2 1,
   (c1_count_mismatch_fatal).2.2.1 _ _ 2 1 rfl,
   (c1_count_mismatch_fatal).2.2.2.1 _ [nDupA, m2] _ _ rfl (by decide) rfl⟩

/-! ## Rate limiter lemmas -/

/-- Refilling never lifts the token count above the maximum, whatever
the elapsed time. -/
theorem refill_tokens_le (r : RateLimiter) (now : ℚ) :
    (r.refill now).tokens ≤ r.maxTokens := by
  unfold RateLimiter.refill
  dsimp only
  split
  · exact le_refl _
  · next hgt => exact not_lt.mp hgt

/-- TryAcquire preserves the configured maximum. -/
theorem tryAcquire_max_eq (r : RateLimiter) (now : ℚ) :
    ((r.tryAcquire now).2).maxTokens = r.maxTokens := by
  unfold RateLimiter.tryAcquire
  split <;> rfl

/-- TryAcquire keeps the token count at most the maximum. -/
theorem tryAcquire_tokens_le (r : RateLimiter) (now : ℚ) :
    ((r.tryAcquire now).2).tokens ≤ r.maxTokens := by
  unfold RateLimiter.tryAcquire
  have hre := refill_tokens_le r now
  split
  · dsimp only
    linarith
  · exact hre

/-- Along any trace of TryAcquire calls, the token count stays at most
the configured maximum, and the maximum is preserved. -/
theorem runTrace_tokens_le (times : List ℚ) :
    ∀ r : RateLimiter, r.tokens ≤ r.maxTokens →
      (r.runTrace times).tokens ≤ (r.runTrace times).maxTokens ∧
        (r.runTrace times).maxTokens = r.maxTokens := by
  induction times with
  | nil => intro r h; exact ⟨h, rfl⟩
  | cons now rest ih =>
    intro r h
    have hstep : ((r.tryAcquire now).2).tokens ≤ ((r.tryAcquire now).2).maxTokens := by
      rw [tryAcquire_max_eq]
      exact tryAcquire_tokens_le r now
    have := ih ((r.tryAcquire now).2) hstep
    exact ⟨(by simpa [RateLimiter.runTrace] using this.1),
           (by simpa [RateLimiter.runTrace, tryAcquire_max_eq] using this.2)⟩

/-- TryAcquire issued at the very instant of the last refill, on a
bucket not above its maximum: no token is produced, so the call
succeeds exactly when a full token is present and then removes it. -/
theorem tryAcquire_no_elapsed (tk mx rr t0 : ℚ) (hmx : tk ≤ mx) :
    RateLimiter.tryAcquire ⟨tk, mx, rr, t0⟩ t0 =
      (if 1 ≤ tk then (true, ⟨tk - 1, mx, rr, t0⟩) else (false, ⟨tk, mx, rr, t0⟩)) := by
  have hrefill : RateLimiter.refill ⟨tk, mx, rr, t0⟩ t0 = ⟨tk, mx, rr, t0⟩ := by
    unfold RateLimiter.refill refillRaw
    dsimp only
    have hz : tk + (t0 - t0) * rr = tk := by ring
    rw [hz, if_neg (not_lt.mpr hmx)]
  unfold RateLimiter.tryAcquire
  rw [hrefill]

/-- TryAcquire on an empty bucket whose maximum is at least one token:
the call succeeds exactly when the elapsed time has produced at least
one token. -/
theorem tryAcquire_zero_state (mx rr t0 t : ℚ) (hmx : 1 ≤ mx) :
    (RateLimiter.tryAcquire ⟨0, mx, rr, t0⟩ t).1 =
      decide (1 ≤ (t - t0) * rr) := by
  have hraw : refillRaw ⟨0, mx, rr, t0⟩ t = (t - t0) * rr := by
    unfold refillRaw
    dsimp only
    ring
  unfold RateLimiter.tryAcquire RateLimiter.refill
  rw [hraw]
  dsimp only
  by_cases hcap : (t - t0) * rr > mx
  · rw [if_pos hcap]
    rw [if_pos hmx]
    have : (1 : ℚ) ≤ (t - t0) * rr := by linarith
    simp [this]
  · rw [if_neg hcap]
    by_cases hone : (1 : ℚ) ≤ (t - t0) * rr
    · rw [if_pos hone]
      simp [hone]
    · rw [if_neg hone]
      simp [hone]

/-- Consecutive TryAcquire calls at the very instant of the last refill
decrement the bucket one token at a time with no refill. -/
theorem consume_at_refill_instant (t0 : ℚ) :
    ∀ (k : Nat) (r : RateLimiter), r.lastRefill = t0 →
      (k : ℚ) ≤ r.tokens → r.tokens ≤ r.maxTokens →
      r.consume t0 k =
        { tokens := r.tokens - k, maxTokens := r.maxTokens,
          refillRate := r.refillRate, lastRefill := t0 } := by
  intro k
  induction k with
  | zero =>
    intro r hlast _ _
    show r = _
    cases r with
    | mk tk mx rr lr =>
      dsimp only at hlast
      subst hlast
      simp
  | succ n ih =>
    intro r hlast hk hmax
    have hone : (1 : ℚ) ≤ r.tokens := by
      have h1 : ((n : ℚ) + 1) ≤ r.tokens := by push_cast at hk; linarith
      have hn : (0 : ℚ) ≤ (n : ℚ) := Nat.cast_nonneg n
      linarith
    have hmk : r = ⟨r.tokens, r.maxTokens, r.refillRate, t0⟩ := by
      cases r with
      | mk tk mx rr lr =>
        dsimp only at hlast
        subst hlast
        rfl
    have hstep : (r.tryAcquire t0).2 =
        ({ tokens := r.tokens - 1, maxTokens := r.maxTokens,
           refillRate := r.refillRate, lastRefill := t0 } : RateLimiter) := by
      conv_lhs => rw [hmk]
      rw [tryAcquire_no_elapsed _ _ _ _ hmax, if_pos hone]
    show ((r.tryAcquire t0).2).consume t0 n = _
    rw [hstep]
    rw [ih _ rfl (by dsimp only; push_cast at hk ⊢; linarith) (by dsimp only; linarith)]
    have harith : r.tokens - 1 - (n : ℚ) = r.tokens - ((n : ℚ) + 1) := by ring
    simp only [harith]
    push_cast
    rfl

/-! ## C9: token-bucket burst behavior -/

/-- C9: a limiter with positive burst size B admits each of the first B
non-blocking TryAcquire calls issued with no elapsed refill time,
rejects the call after those B while the elapsed time has produced less
than one token, admits it again once at least one token has been
produced, and never holds more than the configured maximum of tokens
along any call trace. -/
theorem c9_rate_limiter_burst (rpm burstSize : Int) (t0 : ℚ) (hB : 0 < burstSize) :
    (∀ k : Nat, (k : ℤ) < burstSize →
      (((NewRateLimiter { requestsPerMinute := rpm, burstSize := burstSize } t0).consume t0 k).tryAcquire t0).1 = true)
    ∧ (((NewRateLimiter { requestsPerMinute := rpm, burstSize := burstSize } t0).consume t0 burstSize.toNat).tryAcquire t0).1 = false
    ∧ (∀ t : ℚ, (t - t0) * (NewRateLimiter { requestsPerMinute := rpm, burstSize := burstSize } t0).refillRate < 1 →
        (((NewRateLimiter { requestsPerMinute := rpm, burstSize := burstSize } t0).consume t0 burstSize.toNat).tryAcquire t).1 = false)
    ∧ (∀ t : ℚ, 1 ≤ (t - t0) * (NewRateLimiter { requestsPerMinute := rpm, burstSize := burstSize } t0).refillRate →
        (((NewRateLimiter { requestsPerMinute := rpm, burstSize := burstSize } t0).consume t0 burstSize.toNat).tryAcquire t).1 = true)
    ∧ (∀ times : List ℚ,
        ((NewRateLimiter { requestsPerMinute := rpm, burstSize := burstSize } t0).runTrace times).tokens
          ≤ (NewRateLimiter { requestsPerMinute := rpm, burstSize := burstSize } t0).maxTokens) := by
  have hBq : (0 : ℚ) < (burstSize : ℚ) := by exact_mod_cast hB
  have hBone : (1 : ℚ) ≤ (burstSize : ℚ) := by
    have h1 : (1 : ℤ) ≤ burstSize := hB
    exact_mod_cast h1
  have hEB : effectiveBurst { requestsPerMinute := rpm, burstSize := burstSize } =
      (burstSize : ℚ) := by
    unfold effectiveBurst
    dsimp only
    rw [if_neg (not_le.mpr hBq)]
  have ht : (NewRateLimiter { requestsPerMinute := rpm, burstSize := burstSize } t0).tokens =
      (burstSize : ℚ) := hEB
  have hm : (NewRateLimiter { requestsPerMinute := rpm, burstSize := burstSize } t0).maxTokens =
      (burstSize : ℚ) := hEB
  have htm : (NewRateLimiter { requestsPerMinute := rpm, burstSize := burstSize } t0).tokens ≤
      (NewRateLimiter { requestsPerMinute := rpm, burstSize := burstSize } t0).maxTokens :=
    le_of_eq (ht.trans hm.symm)
  have htoNat : ((burstSize.toNat : ℚ)) = (burstSize : ℚ) := by
    exact_mod_cast Int.toNat_of_nonneg hB.le
  refine ⟨?_, ?_, ?_, ?_, ?_⟩
  · intro k hk
    have hkq : (k : ℚ) < (burstSize : ℚ) := by exact_mod_cast hk
    have hk1 : (k : ℚ) + 1 ≤ (burstSize : ℚ) := by
      have h2 : (k : ℤ) + 1 ≤ burstSize := hk
      exact_mod_cast h2
    have hknn : (0 : ℚ) ≤ (k : ℚ) := Nat.cast_nonneg k
    rw [consume_at_refill_instant t0 k _ rfl (by rw [ht]; linarith) htm]
    rw [tryAcquire_no_elapsed _ _ _ _ (by rw [ht, hm]; linarith)]
    rw [if_pos (by rw [ht]; linarith)]
  · have hknn : (0 : ℚ) ≤ ((burstSize.toNat : ℚ)) := Nat.cast_nonneg _
    rw [consume_at_refill_instant t0 _ _ rfl (by rw [ht]; exact le_of_eq htoNat) htm]
    rw [tryAcquire_no_elapsed _ _ _ _ (by rw [ht, hm]; linarith)]
    rw [if_neg (by rw [ht, htoNat]; intro hcon; linarith)]
  · intro t hlt
    have hzero : (NewRateLimiter { requestsPerMinute := rpm, burstSize := burstSize } t0).tokens -
        ((burstSize.toNat : ℚ)) = 0 := by
      rw [ht, htoNat]; ring
    rw [consume_at_refill_instant t0 _ _ rfl (by rw [ht]; exact le_of_eq htoNat) htm]
    rw [hzero, hm]
    rw [tryAcquire_zero_state _ _ _ _ hBone]
    exact decide_eq_false (not_le.mpr hlt)
  · intro t hge
    have hzero : (NewRateLimiter { requestsPerMinute := rpm, burstSize := burstSize } t0).tokens -
        ((burstSize.toNat : ℚ)) = 0 := by
      rw [ht, htoNat]; ring
    rw [consume_at_refill_instant t0 _ _ rfl (by rw [ht]; exact le_of_eq htoNat) htm]
    rw [hzero, hm]
    rw [tryAcquire_zero_state _ _ _ _ hBone]
    exact decide_eq_true hge
  · intro times
    have := runTrace_tokens_le times _ htm
    rw [← this.2]
    exact this.1

/-- Witness for C9 at burst size 3 and 60 RPM starting at time 0: the
first three immediate acquisitions succeed, the fourth fails, it still
fails after half a second (half a token refilled), succeeds after one
full second, and a trace of five immediate calls never exceeds the
maximum. -/
theorem c9_witness :
    (((NewRateLimiter { requestsPerMinute := 60, burstSize := 3 } 0).consume 0 2).tryAcquire 0).1 = true
    ∧ (((NewRateLimiter { requestsPerMinute := 60, burstSize := 3 } 0).consume 0 3).tryAcquire 0).1 = false
    ∧ (((NewRateLimiter { requestsPerMinute := 60, burstSize := 3 } 0).consume 0 3).tryAcquire (1/2)).1 = false
    ∧ (((NewRateLimiter { requestsPerMinute := 60, burstSize := 3 } 0).consume 0 3).tryAcquire 1).1 = true
    ∧ ((NewRateLimiter { requestsPerMinute := 60, burstSize := 3 } 0).runTrace [0, 0, 0, 0, 0]).tokens
        ≤ (NewRateLimiter { requestsPerMinute := 60, burstSize := 3 } 0).maxTokens := by
  have h := c9_rate_limiter_burst 60 3 0 (by decide)
  refine ⟨h.1 2 (by decide), h.2.1, ?_, ?_, h.2.2.2.2 [0, 0, 0, 0, 0]⟩
  · have := h.2.2.1 (1/2) (by norm_num [NewRateLimiter, effectiveRPM])
    simpa using this
  · have := h.2.2.2.1 1 (by norm_num [NewRateLimiter, effectiveRPM])
    simpa using this

/-! ## Diff engine lemmas -/

/-- The keys of the hash-indexed map, built from any starting map, are
the starting keys followed by the first occurrences of the remaining
fingerprints. -/
theorem buildByHash_keys_from (nodes : List TextNode) :
    ∀ m : List (String × TextNode),
      ((nodes.foldl (fun m node => mapUpd m node.hash node) m).map (·.1)) =
        m.map (·.1) ++ distinctFrom nodes (m.map (·.1)) := by
  induction nodes with
  | nil => intro m; simp [distinctFrom]
  | cons n rest ih =>
    intro m
    simp only [List.foldl_cons, distinctFrom]
    by_cases hk : hasKey m n.hash
    · rw [memStr_map_fst] at *
      rw [if_pos hk]
      have hupd : (mapUpd m n.hash n).map (·.1) = m.map (·.1) := by
        unfold mapUpd
        rw [if_pos hk, List.map_map]
        have : ∀ p ∈ m, ((fun p => p.1) ∘ fun p => if p.1 = n.hash then (n.hash, n) else p) p
            = (fun p : String × TextNode => p.1) p := by
          intro p _
          by_cases hp : p.1 = n.hash
          · simp [hp]
          · simp [hp]
        exact List.map_congr_left this
      rw [ih (mapUpd m n.hash n), hupd]
    · rw [← memStr_map_fst] at hk
      rw [if_neg hk]
      have hupd : (mapUpd m n.hash n).map (·.1) = m.map (·.1) ++ [n.hash] := by
        unfold mapUpd
        rw [← memStr_map_fst]
        rw [Bool.of_not_eq_true hk]
        simp
      rw [ih (mapUpd m n.hash n), hupd]
      simp

/-- The keys of the hash-indexed map are the distinct fingerprints in
first-occurrence order. -/
theorem buildByHash_keys (nodes : List TextNode) :
    (buildByHash nodes).map (·.1) = distinctHashes nodes := by
  have := buildByHash_keys_from nodes []
  simpa [buildByHash, distinctHashes] using this

/-- Every fingerprint of the collection deduplicates to one entry: with
pairwise distinct fingerprints the distinct list keeps every node. -/
theorem distinctFrom_length_of_nodup :
    ∀ (nodes : List TextNode) (seen : List String),
      (nodes.map (·.hash)).Nodup →
      (∀ n ∈ nodes, memStr n.hash seen = false) →
      (distinctFrom nodes seen).length = nodes.length := by
  intro nodes
  induction nodes with
  | nil => intro seen _ _; rfl
  | cons n rest ih =>
    intro seen hnodup hfresh
    simp only [List.map_cons, List.nodup_cons] at hnodup
    have hn := hfresh n (List.mem_cons_self _ _)
    simp only [distinctFrom, hn, Bool.false_eq_true, if_false, List.length_cons]
    rw [ih (seen ++ [n.hash]) hnodup.2]
    intro x hx
    rw [memStr_append]
    rw [hfresh x (List.mem_cons_of_mem _ hx)]
    simp only [Bool.false_or, memStr]
    by_cases hxn : n.hash = x.hash
    · exact absurd (hxn ▸ List.mem_map_of_mem (·.hash) hx) hnodup.1
    · simp [hxn, memStr]

/-! ## C2: diff of a collection with itself -/

/-- C2 counterexample: for a collection of two units sharing one
fingerprint, DiffContent of the collection with itself returns an
Unchanged set of size 1, not of size 2 = number of elements, because
the diff keys units by fingerprint. -/
theorem c2_counterexample :
    (DiffContent [nDupA, nDupB] [nDupA, nDupB]).unchanged.length = 1 ∧
    ([nDupA, nDupB] : List TextNode).length = 2 ∧
    ¬ ((DiffContent [nDupA, nDupB] [nDupA, nDupB]).unchanged.length
        = ([nDupA, nDupB] : List TextNode).length) := by
  decide

/-- C2 amended: DiffContent(A, A) has empty Added, Removed and Modified
sets, and an Unchanged set with exactly one entry per distinct
fingerprint of A; its size equals the number of elements of A exactly
when the fingerprints of A are pairwise distinct. -/
theorem c2_diff_self_amended (A : List TextNode) :
    (DiffContent A A).added = []
    ∧ (DiffContent A A).removed = []
    ∧ (DiffContent A A).modified = []
    ∧ (DiffContent A A).unchanged.length = (distinctHashes A).length
    ∧ ((A.map (·.hash)).Nodup → (DiffContent A A).unchanged.length = A.length) := by
  have hmem : ∀ p ∈ buildByHash A, hasKey (buildByHash A) p.1 = true := by
    intro p hp
    exact hasKey_of_mem hp
  have hfilter : (buildByHash A).filter (fun p => hasKey (buildByHash A) p.1) = buildByHash A := by
    rw [List.filter_eq_self]
    intro p hp
    exact hmem p hp
  have hfilterneg :
      (buildByHash A).filter (fun p => !(hasKey (buildByHash A) p.1)) = [] := by
    rw [List.filter_eq_nil_iff]
    intro p hp
    rw [hmem p hp]
    decide
  refine ⟨?_, ?_, ?_, ?_, ?_⟩
  · simp [DiffContent, hfilterneg]
  · simp [DiffContent, hfilterneg]
  · simp [DiffContent]
  · simp only [DiffContent, hfilter, List.length_map]
    rw [← buildByHash_keys A, List.length_map]
  · intro hnodup
    simp only [DiffContent, hfilter, List.length_map]
    rw [← List.length_map (buildByHash A) (·.1), buildByHash_keys A]
    unfold distinctHashes
    rw [distinctFrom_length_of_nodup A [] hnodup (fun n _ => rfl)]

/-- Witness for C2 amended, at a two-unit collection with distinct
fingerprints: the diff of the collection with itself has empty change
sets and an Unchanged set of full size 2. -/
theorem c2_witness :
    (DiffContent [m1, m2] [m1, m2]).added = []
    ∧ (DiffContent [m1, m2] [m1, m2]).removed = []
    ∧ (DiffContent [m1, m2] [m1, m2]).modified = []
    ∧ (DiffContent [m1, m2] [m1, m2]).unchanged.length = 2 :=
  ⟨(c2_diff_self_amended [m1, m2]).1,
   (c2_diff_self_amended [m1, m2]).2.1,
   (c2_diff_self_amended [m1, m2]).2.2.1,
   (c2_diff_self_amended [m1, m2]).2.2.2.2 (by decide)⟩

/-! ## C4: modified-pair matching of the context diff -/

/-- C4 counterexample: the removed unit cR has the same id as the added
unit cA2, yet the second pass pairs cR with cA1, which only shares its
context, because cA1 comes first in the added list and the id and
context comparisons run per candidate, not as two prioritized passes. -/
theorem c4_counterexample :
    (DiffContentWithContext [cR] [cA1, cA2]).modified = [{ old := cR, new := cA1 }]
    ∧ cR.id = cA2.id
    ∧ cR.id ≠ cA1.id
    ∧ cA2 ∈ (DiffContent [cR] [cA1, cA2]).added
    ∧ (DiffContentWithContext [cR] [cA1, cA2]).added = [cA2]
    ∧ (DiffContentWithContext [cR] [cA1, cA2]).removed = [] := by
  decide

/-- The inner scan only returns candidates passing the match test. -/
theorem findFirstMatch_sound (removed : TextNode) (matched : List Nat) :
    ∀ (addedIdx : List (Nat × TextNode)) (ai : Nat) (a : TextNode),
      findFirstMatch removed matched addedIdx = some (ai, a) →
      matchCandidate removed a = true := by
  intro addedIdx
  induction addedIdx with
  | nil => intro ai a h; cases h
  | cons p rest ih =>
    intro ai a h
    cases p with
    | mk pi pa =>
      by_cases hm : memNat pi matched
      · simp only [findFirstMatch, hm, if_true] at h
        exact ih ai a h
      · simp only [findFirstMatch, hm, Bool.false_eq_true, if_false] at h
        by_cases hc : matchCandidate removed pa
        · rw [if_pos hc] at h
          cases h
          exact hc
        · rw [if_neg hc] at h
          exact ih ai a h

/-- Passing the match test means sharing the id or sharing a non-empty
disambiguation context. -/
theorem matchCandidate_spec (removed added : TextNode)
    (h : matchCandidate removed added = true) :
    removed.id = added.id ∨ (removed.context ≠ "" ∧ removed.context = added.context) := by
  unfold matchCandidate at h
  by_cases hid : removed.id = added.id
  · exact Or.inl hid
  · rw [if_neg hid] at h
    by_cases hctx : removed.context ≠ "" ∧ removed.context = added.context
    · exact Or.inr hctx
    · rw [if_neg hctx] at h
      cases h

/-- Every pair the second pass accumulates passes the match test. -/
theorem secondPassLoop_sound (addedIdx : List (Nat × TextNode)) :
    ∀ (removedIdx : List (Nat × TextNode))
      (acc : List ModifiedNode × List Nat × List Nat),
      (∀ p ∈ acc.1, matchCandidate p.old p.new = true) →
      ∀ p ∈ (secondPassLoop addedIdx removedIdx acc).1,
        matchCandidate p.old p.new = true := by
  intro removedIdx
  induction removedIdx with
  | nil => intro acc hacc p hp; exact hacc p hp
  | cons rp rest ih =>
    intro acc hacc p hp
    cases rp with
    | mk ri r =>
      cases acc with
      | mk modified matchedPair =>
        cases matchedPair with
        | mk matched removedMatched =>
          simp only [secondPassLoop] at hp
          cases hfind : findFirstMatch r matched addedIdx with
          | none =>
            rw [hfind] at hp
            exact ih (modified, matched, removedMatched) hacc p hp
          | some pair =>
            cases pair with
            | mk ai a =>
              rw [hfind] at hp
              refine ih _ ?_ p hp
              intro q hq
              rcases List.mem_append.mp hq with hq1 | hq2
              · exact hacc q hq1
              · rcases List.mem_singleton.mp hq2 with rfl
                exact findFirstMatch_sound r matched addedIdx ai a hfind

/-- C4 amended: in the second pass of DiffContentWithContext, each
removed unit is paired with the first unmatched added unit, scanning
the added list in order, that shares its id or shares its non-empty
disambiguation context — the id and context tests run per candidate,
so an earlier context match wins over a later id match.  Every matched
pair therefore satisfies the id-or-context criterion, and on the
concrete example of the claim the result is exactly one modified pair
and empty Added and Removed sets. -/
theorem c4_modified_matching_amended :
    (DiffContentWithContext [exOld1] [exNew1] =
      { added := [], removed := [], unchanged := [],
        modified := [{ old := exOld1, new := exNew1 }] })
    ∧ (∀ (oldNodes newNodes : List TextNode),
        ∀ p ∈ (DiffContentWithContext oldNodes newNodes).modified,
          p.old.id = p.new.id ∨
            (p.old.context ≠ "" ∧ p.old.context = p.new.context)) := by
  constructor
  · decide
  · intro oldNodes newNodes p hp
    unfold DiffContentWithContext at hp
    by_cases hcond : 0 < (DiffContent oldNodes newNodes).added.length ∧
        0 < (DiffContent oldNodes newNodes).removed.length
    · rw [if_pos hcond] at hp
      dsimp only at hp
      exact matchCandidate_spec p.old p.new
        (secondPassLoop_sound (withIdx 0 (DiffContent oldNodes newNodes).added)
          (withIdx 0 (DiffContent oldNodes newNodes).removed) ([], [], [])
          (by intro q hq; cases hq) p hp)
    · rw [if_neg hcond] at hp
      simp only [DiffContent] at hp
      cases hp

/-- Witness for C4 amended: the pair produced on the counterexample
input satisfies the id-or-context criterion through its context. -/
theorem c4_witness :
    ({ old := cR, new := cA1 } : ModifiedNode).old.id =
        ({ old := cR, new := cA1 } : ModifiedNode).new.id ∨
      (({ old := cR, new := cA1 } : ModifiedNode).old.context ≠ "" ∧
        ({ old := cR, new := cA1 } : ModifiedNode).old.context =
          ({ old := cR, new := cA1 } : ModifiedNode).new.context) :=
  c4_modified_matching_amended.2 [cR] [cA1, cA2] { old := cR, new := cA1 } (by decide)

/-! ## C5: same-language short circuit -/

/-- C5: whenever the base language tag of the target equals that of the
source — compared case-insensitively with any region suffix stripped —
Process returns the input content unchanged with all three counters
zero and dispatches no request to the backend, for every content
string, content type, and processor registry. -/
theorem c5_language_short_circuit (t : Translator) (setAttrs : String → String)
    (content contentType : String)
    (h : normalizeBaseLang t.targetLang = normalizeBaseLang t.sourceLang) :
    Process t setAttrs content contentType =
      (.ok { content := content, translatedCount := 0, cachedCount := 0, totalNodes := 0 },
       []) := by
  have hsl : isSourceLang t = true := by
    simp [isSourceLang, h]
  simp [Process, hsl]

/-- Witness for C5 at source en with target en_US: the output equals
the input verbatim with zero counts and the backend receives no
request, although a provider is configured. -/
theorem c5_witness :
    Process tEn id "<p>Hello</p>" "html" =
      (.ok { content := "<p>Hello</p>", translatedCount := 0, cachedCount := 0,
             totalNodes := 0 },
       []) :=
  c5_language_short_circuit tEn id "<p>Hello</p>" "html" (by decide)

/-! ## C6: fingerprint deduplication and broadcast -/

/-- With every node carrying the same uncached fingerprint, the cache
probe keeps exactly the first node as the one miss. -/
theorem batchProbeLoop_uniform_stable (t : Translator) (fp : String)
    (hmiss : ∀ get, t.cache = some get → get (CacheKey fp t.targetLang) = none) :
    ∀ (rest : List TextNode) (acc : BatchProbe),
      (∀ n ∈ rest, n.hash = fp) →
      memStr fp acc.seenHashes = true →
      batchProbeLoop t rest acc = acc := by
  intro rest
  induction rest with
  | nil => intro acc _ _; rfl
  | cons n rest2 ih =>
    intro acc hall hseen
    have hn : n.hash = fp := hall n (List.mem_cons_self _ _)
    have hstep : probeStep t acc n = acc := by
      unfold probeStep
      cases hc : t.cache with
      | none =>
        unfold missStep
        simp [hn, hseen]
      | some get =>
        have hg : get (CacheKey n.hash t.targetLang) = none := by
          rw [hn]
          exact hmiss get hc
        simp only [hg]
        unfold missStep
        simp [hn, hseen]
    show batchProbeLoop t rest2 (probeStep t acc n) = acc
    rw [hstep]
    exact ih acc (fun x hx => hall x (List.mem_cons_of_mem _ hx)) hseen

/-- The cache probe of an all-one-fingerprint uncached batch: no hits,
one miss — the first node. -/
theorem batchProbe_uniform (t : Translator) (n0 : TextNode) (rest : List TextNode)
    (fp : String)
    (hall : ∀ n ∈ n0 :: rest, n.hash = fp)
    (hmiss : ∀ get, t.cache = some get → get (CacheKey fp t.targetLang) = none) :
    batchProbe t (n0 :: rest) =
      { translations := [], cacheMisses := [n0], seenHashes := [fp], cachedCount := 0 } := by
  have h0 : n0.hash = fp := hall n0 (List.mem_cons_self _ _)
  have hstep : probeStep t { translations := [], cacheMisses := [], seenHashes := [], cachedCount := 0 } n0 =
      { translations := [], cacheMisses := [n0], seenHashes := [fp], cachedCount := 0 } := by
    unfold probeStep
    cases hc : t.cache with
    | none =>
      unfold missStep
      simp [memStr, h0]
    | some get =>
      have hg : get (CacheKey n0.hash t.targetLang) = none := by
        rw [h0]
        exact hmiss get hc
      simp only [hg]
      unfold missStep
      simp [memStr, h0]
  show batchProbeLoop t rest (probeStep t { translations := [], cacheMisses := [], seenHashes := [], cachedCount := 0 } n0) = _
  rw [hstep]
  exact batchProbeLoop_uniform_stable t fp hmiss rest _
    (fun x hx => hall x (List.mem_cons_of_mem _ hx)) (by simp [memStr])

/-- C6: for a batch of N units sharing one uncached fingerprint, the
backend request carries exactly one text — that of the first unit — the
batch reports zero cache hits and one newly translated fingerprint, and
after reinsertion all N units carry the single returned translation. -/
theorem c6_dedup_broadcast (t : Translator) (n0 : TextNode) (rest : List TextNode)
    (fp : String) (backend : AIProvider) (s : String)
    (hall : ∀ n ∈ n0 :: rest, n.hash = fp)
    (hmiss : ∀ get, t.cache = some get → get (CacheKey fp t.targetLang) = none)
    (hp : t.provider = some backend)
    (hres : backend (buildRequest t [n0]) = .ok [s]) :
    (buildRequest t [n0]).texts = [n0.text]
    ∧ translateBatch t (n0 :: rest) = (.ok ([(fp, s)], 0, 1), [buildRequest t [n0]])
    ∧ applyTranslationsToNodes (n0 :: rest) [(fp, s)] =
        List.replicate (n0 :: rest).length s := by
  have hprobe := batchProbe_uniform t n0 rest fp hall hmiss
  have h0 : n0.hash = fp := hall n0 (List.mem_cons_self _ _)
  refine ⟨rfl, ?_, ?_⟩
  · unfold translateBatch
    rw [hprobe, hp]
    dsimp only
    rw [hres]
    dsimp only [List.length_cons, List.length_nil]
    norm_num
    simp [applyResults, mapUpd, hasKey, h0]
  · rw [List.eq_replicate_iff]
    constructor
    · simp [applyTranslationsToNodes]
    · intro b hb
      rcases List.mem_map.mp hb with ⟨n, hn, rfl⟩
      unfold applyNodeText
      rw [hall n hn]
      simp [lookupKey]

/-- Witness for C6 at three units sharing fingerprint h: the backend
request carries one text, the batch result maps h to the one returned
translation with counts (cached 0, translated 1), and all three units
receive that translation. -/
theorem c6_witness :
    (buildRequest t6 [n6a]).texts = ["Hello"]
    ∧ translateBatch t6 [n6a, n6b, n6c] =
        (.ok ([("h", "Hola")], 0, 1), [buildRequest t6 [n6a]])
    ∧ applyTranslationsToNodes [n6a, n6b, n6c] [("h", "Hola")] =
        List.replicate 3 "Hola" :=
  c6_dedup_broadcast t6 n6a [n6b, n6c] "h" b6 "Hola"
    (by decide) (fun get h => nomatch h) rfl rfl

/-! ## C8: count invariant -/

/-- One probe iteration raises hit count plus miss-list length by at
most one. -/
theorem probeStep_count_le (t : Translator) (acc : BatchProbe) (node : TextNode) :
    (probeStep t acc node).cachedCount + (probeStep t acc node).cacheMisses.length ≤
      acc.cachedCount + acc.cacheMisses.length + 1 := by
  unfold probeStep missStep
  split
  · split
    · dsimp only
      omega
    · split
      · omega
      · dsimp only
        simp only [List.length_append, List.length_singleton]
        omega
  · split
    · omega
    · dsimp only
      simp only [List.length_append, List.length_singleton]
      omega

/-- Along the probe loop, hit count plus miss-list length grows by at
most the number of nodes processed. -/
theorem batchProbeLoop_count_le (t : Translator) :
    ∀ (nodes : List TextNode) (acc : BatchProbe),
      (batchProbeLoop t nodes acc).cachedCount +
          (batchProbeLoop t nodes acc).cacheMisses.length ≤
        acc.cachedCount + acc.cacheMisses.length + nodes.length := by
  intro nodes
  induction nodes with
  | nil => intro acc; simp [batchProbeLoop]
  | cons node rest ih =>
    intro acc
    have h1 := ih (probeStep t acc node)
    have h2 := probeStep_count_le t acc node
    show (batchProbeLoop t rest (probeStep t acc node)).cachedCount +
        (batchProbeLoop t rest (probeStep t acc node)).cacheMisses.length ≤ _
    simp only [List.length_cons]
    omega

/-- The counters of the whole probe are bounded by the batch size. -/
theorem batchProbe_count_le (t : Translator) (nodes : List TextNode) :
    (batchProbe t nodes).cachedCount + (batchProbe t nodes).cacheMisses.length ≤
      nodes.length := by
  have := batchProbeLoop_count_le t nodes
    { translations := [], cacheMisses := [], seenHashes := [], cachedCount := 0 }
  simpa [batchProbe] using this

/-- A successful translateBatch reports translated plus cached at most
the number of nodes. -/
theorem translateBatch_ok_counts (t : Translator) (nodes : List TextNode)
    (m : List (String × String)) (c tc : Nat) (reqs : List TranslateRequest)
    (h : translateBatch t nodes = (.ok (m, c, tc), reqs)) :
    tc + c ≤ nodes.length ∧ c = (batchProbe t nodes).cachedCount := by
  have hbound := batchProbe_count_le t nodes
  unfold translateBatch at h
  split at h
  · split at h
    · split at h
      · simp at h
      · split at h
        · simp at h
        · simp only [Prod.mk.injEq, GoResult.ok.injEq] at h
          obtain ⟨⟨hm, hc, htc⟩, hreqs⟩ := h
          subst hc htc
          exact ⟨by omega, rfl⟩
    · simp only [Prod.mk.injEq, GoResult.ok.injEq] at h
      obtain ⟨⟨hm, hc, htc⟩, hreqs⟩ := h
      subst hc htc
      exact ⟨by omega, rfl⟩
  · simp only [Prod.mk.injEq, GoResult.ok.injEq] at h
    obtain ⟨⟨hm, hc, htc⟩, hreqs⟩ := h
    subst hc htc
    exact ⟨by omega, rfl⟩

/-- C8: every successful Process call satisfies
TranslatedCount + CachedCount at most TotalNodes, where TotalNodes
counts every extracted unit and the two counters come from the
per-fingerprint batch resolution. -/
theorem c8_count_invariant (t : Translator) (setAttrs : String → String)
    (content contentType : String) (pc : ProcessedContent)
    (reqs : List TranslateRequest)
    (h : Process t setAttrs content contentType = (.ok pc, reqs)) :
    pc.translatedCount + pc.cachedCount ≤ pc.totalNodes := by
  unfold Process at h
  split at h
  · simp only [Prod.mk.injEq, GoResult.ok.injEq] at h
    obtain ⟨hpc, hreqs⟩ := h
    subst hpc
    simp
  · split at h
    · simp at h
    · next processor hlp =>
      split at h
      · simp at h
      · next parsed nodes hex =>
        split at h
        · simp only [Prod.mk.injEq, GoResult.ok.injEq] at h
          obtain ⟨hpc, hreqs⟩ := h
          subst hpc
          simp
        · split at h
          · simp at h
          · simp at h
          · next mm cc tcc reqs2 htb =>
            split at h
            · simp at h
            · simp only [Prod.mk.injEq, GoResult.ok.injEq] at h
              obtain ⟨hpc, hreqs⟩ := h
              subst hpc
              have := (translateBatch_ok_counts t nodes mm cc tcc reqs2 htb).1
              simpa using this

/-- Witness for C8 at a one-unit batch translated by an echo backend:
the returned counters 1 + 0 are bounded by the single extracted unit. -/
theorem c8_witness :
    ({ content := "applied", translatedCount := 1, cachedCount := 0,
       totalNodes := 1 } : ProcessedContent).translatedCount +
      ({ content := "applied", translatedCount := 1, cachedCount := 0,
         totalNodes := 1 } : ProcessedContent).cachedCount ≤
      ({ content := "applied", translatedCount := 1, cachedCount := 0,
         totalNodes := 1 } : ProcessedContent).totalNodes :=
  c8_count_invariant t8 id "<p>Hello</p>" "html"
    { content := "applied", translatedCount := 1, cachedCount := 0, totalNodes := 1 }
    [buildRequest t8 [n6a]] rfl

/-! ## C10: nil backend provider -/

/-- Hit entries recorded by the probe loop come from the cache: every
binding readable in the final translations map was readable in the
starting map or is a cache hit. -/
theorem batchProbeLoop_translations_from_cache (t : Translator) :
    ∀ (nodes : List TextNode) (acc : BatchProbe),
      (∀ k v, lookupKey acc.translations k = some v →
        ∃ get, t.cache = some get ∧ get (CacheKey k t.targetLang) = some v) →
      ∀ k v, lookupKey (batchProbeLoop t nodes acc).translations k = some v →
        ∃ get, t.cache = some get ∧ get (CacheKey k t.targetLang) = some v := by
  intro nodes
  induction nodes with
  | nil => intro acc hacc k v h; exact hacc k v h
  | cons node rest ih =>
    intro acc hacc k v h
    refine ih (probeStep t acc node) ?_ k v h
    intro k2 v2 h2
    unfold probeStep at h2
    split at h2
    next get heq =>
      split at h2
      next cached hg =>
        dsimp only at h2
        rw [lookupKey_mapUpd] at h2
        by_cases hk : node.hash = k2
        · rw [if_pos hk] at h2
          injection h2 with h3
          subst h3
          exact ⟨get, heq, by rw [← hk]; exact hg⟩
        · rw [if_neg hk] at h2
          exact hacc k2 v2 h2
      next hg =>
        unfold missStep at h2
        split at h2
        · exact hacc k2 v2 h2
        · exact hacc k2 v2 h2
    next heq =>
      unfold missStep at h2
      split at h2
      · exact hacc k2 v2 h2
      · exact hacc k2 v2 h2

/-- C10: with a nil backend provider, translateBatch never fails and
never dispatches: it returns the cache hits with translated count 0,
the misses are simply absent from the translations map, so Apply
leaves their units unchanged, and Process returns successfully with
TranslatedCount 0 whenever the processor itself succeeds. -/
theorem c10_nil_provider (t : Translator) (hp : t.provider = none) :
    (∀ nodes : List TextNode,
      translateBatch t nodes =
        (.ok ((batchProbe t nodes).translations, (batchProbe t nodes).cachedCount, 0), [])
      ∧ ∀ n ∈ nodes,
          (∀ get, t.cache = some get → get (CacheKey n.hash t.targetLang) = none) →
          lookupKey (batchProbe t nodes).translations n.hash = none
          ∧ applyNodeText (batchProbe t nodes).translations n = n.text)
    ∧ (∀ (setAttrs : String → String) (content contentType : String)
        (processor : ContentProcessor) (parsed : String) (nodes : List TextNode),
        lookupProcessor t.processors contentType = some processor →
        processor.extract content = .ok (parsed, nodes) →
        (∀ m, ∃ out, processor.apply parsed nodes m = .ok out) →
        ∃ pc, (Process t setAttrs content contentType).1 = .ok pc ∧
          pc.translatedCount = 0) := by
  have hbatch : ∀ nodes : List TextNode,
      translateBatch t nodes =
        (.ok ((batchProbe t nodes).translations, (batchProbe t nodes).cachedCount, 0), []) := by
    intro nodes
    unfold translateBatch
    rw [hp]
  have hlook : ∀ (nodes : List TextNode), ∀ n ∈ nodes,
      (∀ get, t.cache = some get → get (CacheKey n.hash t.targetLang) = none) →
      lookupKey (batchProbe t nodes).translations n.hash = none := by
    intro nodes n _ hmiss
    cases hlk : lookupKey (batchProbe t nodes).translations n.hash with
    | none => rfl
    | some v =>
      have := batchProbeLoop_translations_from_cache t nodes
        { translations := [], cacheMisses := [], seenHashes := [], cachedCount := 0 }
        (by intro k v h; cases h) n.hash v hlk
      rcases this with ⟨get, hc, hg⟩
      rw [hmiss get hc] at hg
      cases hg
  constructor
  · intro nodes
    refine ⟨hbatch nodes, ?_⟩
    intro n hn hmiss
    have h1 := hlook nodes n hn hmiss
    refine ⟨h1, ?_⟩
    unfold applyNodeText
    rw [h1]
  · intro setAttrs content contentType processor parsed nodes hlp hex happ
    unfold Process
    by_cases hsl : isSourceLang t = true
    · rw [if_pos hsl]
      exact ⟨_, rfl, rfl⟩
    · rw [if_neg (by simpa using hsl), hlp]
      dsimp only
      rw [hex]
      dsimp only
      by_cases hn : nodes.length = 0
      · rw [if_pos hn]
        exact ⟨_, rfl, rfl⟩
      · rw [if_neg hn, hbatch nodes]
        dsimp only
        rcases happ (batchProbe t nodes).translations with ⟨out, hout⟩
        rw [hout]
        exact ⟨_, rfl, rfl⟩

/-- Witness for C10: with no provider, a one-unit uncached batch
returns successfully with an empty translations map, the unit keeps
its own text through Apply, and the full Process call returns
successfully with TranslatedCount 0. -/
theorem c10_witness :
    translateBatch t10 [n6a] = (.ok ([], 0, 0), [])
    ∧ applyNodeText ((batchProbe t10 [n6a]).translations) n6a = n6a.text
    ∧ ∃ pc, (Process t10 id "<p>Hello</p>" "html").1 = .ok pc ∧
        pc.translatedCount = 0 :=
  ⟨((c10_nil_provider t10 rfl).1 [n6a]).1,
   (((c10_nil_provider t10 rfl).1 [n6a]).2 n6a (List.mem_cons_self _ _)
      (fun get h => nomatch h)).2,
   (c10_nil_provider t10 rfl).2 id "<p>Hello</p>" "html" pr8 "parsed" [n6a]
      rfl rfl (fun m => ⟨"applied", rfl⟩)⟩

/-! ## C3: parallel versus sequential batch path -/

/-- C3 counterexample: two units sharing one cached fingerprint, at the
parallel threshold.  The parallel path counts one cache hit (one unique
fingerprint) while the sequential path counts two (one per unit), so
the caller-visible results differ. -/
theorem c3_counterexample :
    TranslateBatchParallel ptCx [n6a, n6b] = (.ok ([("h", "V")], 1, 0), [])
    ∧ translateBatch tCx [n6a, n6b] = (.ok ([("h", "V")], 2, 0), [])
    ∧ ¬ ((TranslateBatchParallel ptCx [n6a, n6b]).1 =
          (translateBatch tCx [n6a, n6b]).1) :=
  ⟨by decide, by decide, by decide⟩

theorem canonHits_cons_hit_skip (get : CacheGet) (tgt : String) (n : TextNode)
    (rest : List TextNode) (hitSeen : List String) (v : String)
    (hg : get (CacheKey n.hash tgt) = some v)
    (hmem : memStr n.hash hitSeen = true) :
    canonHits get tgt (n :: rest) hitSeen = canonHits get tgt rest hitSeen := by
  rw [canonHits.eq_def]
  dsimp only
  rw [hg]
  simp [hmem]

theorem canonHits_cons_hit_new (get : CacheGet) (tgt : String) (n : TextNode)
    (rest : List TextNode) (hitSeen : List String) (v : String)
    (hg : get (CacheKey n.hash tgt) = some v)
    (hmem : memStr n.hash hitSeen = false) :
    canonHits get tgt (n :: rest) hitSeen =
      (n.hash, v) :: canonHits get tgt rest (hitSeen ++ [n.hash]) := by
  rw [canonHits.eq_def]
  dsimp only
  rw [hg]
  simp [hmem]

theorem canonHits_cons_miss (get : CacheGet) (tgt : String) (n : TextNode)
    (rest : List TextNode) (hitSeen : List String)
    (hg : get (CacheKey n.hash tgt) = none) :
    canonHits get tgt (n :: rest) hitSeen = canonHits get tgt rest hitSeen := by
  rw [canonHits.eq_def]
  dsimp only
  rw [hg]

theorem canonMisses_cons_hit (get : CacheGet) (tgt : String) (n : TextNode)
    (rest : List TextNode) (missSeen : List String) (v : String)
    (hg : get (CacheKey n.hash tgt) = some v) :
    canonMisses get tgt (n :: rest) missSeen = canonMisses get tgt rest missSeen := by
  rw [canonMisses.eq_def]
  dsimp only
  rw [hg]

theorem canonMisses_cons_miss_skip (get : CacheGet) (tgt : String) (n : TextNode)
    (rest : List TextNode) (missSeen : List String)
    (hg : get (CacheKey n.hash tgt) = none)
    (hmem : memStr n.hash missSeen = true) :
    canonMisses get tgt (n :: rest) missSeen = canonMisses get tgt rest missSeen := by
  rw [canonMisses.eq_def]
  dsimp only
  rw [hg]
  simp [hmem]

theorem canonMisses_cons_miss_new (get : CacheGet) (tgt : String) (n : TextNode)
    (rest : List TextNode) (missSeen : List String)
    (hg : get (CacheKey n.hash tgt) = none)
    (hmem : memStr n.hash missSeen = false) :
    canonMisses get tgt (n :: rest) missSeen =
      n :: canonMisses get tgt rest (missSeen ++ [n.hash]) := by
  rw [canonMisses.eq_def]
  dsimp only
  rw [hg]
  simp [hmem]

theorem countHits_cons_hit (get : CacheGet) (tgt : String) (n : TextNode)
    (rest : List TextNode) (v : String)
    (hg : get (CacheKey n.hash tgt) = some v) :
    countHits get tgt (n :: rest) = 1 + countHits get tgt rest := by
  rw [countHits.eq_def]
  dsimp only
  rw [hg]
  simp

theorem countHits_cons_miss (get : CacheGet) (tgt : String) (n : TextNode)
    (rest : List TextNode)
    (hg : get (CacheKey n.hash tgt) = none) :
    countHits get tgt (n :: rest) = countHits get tgt rest := by
  rw [countHits.eq_def]
  dsimp only
  rw [hg]
  simp

/-- The sequential cache-check loop in closed form: starting from any
well-formed accumulator, it appends one hit entry per newly seen cached
fingerprint, one miss per newly seen uncached fingerprint, the missed
fingerprints to the seen set, and counts every hit unit. -/
theorem batchProbeLoop_spec (t : Translator) (get : CacheGet) (hc : t.cache = some get) :
    ∀ (nodes : List TextNode) (acc : BatchProbe),
      (∀ p ∈ acc.translations, get (CacheKey p.1 t.targetLang) = some p.2) →
      batchProbeLoop t nodes acc =
        { translations := acc.translations ++
            canonHits get t.targetLang nodes (acc.translations.map (·.1)),
          cacheMisses := acc.cacheMisses ++
            canonMisses get t.targetLang nodes acc.seenHashes,
          seenHashes := acc.seenHashes ++
            (canonMisses get t.targetLang nodes acc.seenHashes).map (·.hash),
          cachedCount := acc.cachedCount + countHits get t.targetLang nodes } := by
  intro nodes
  induction nodes with
  | nil =>
    intro acc hacc
    show acc = _
    simp [canonHits, canonMisses, countHits]
  | cons n rest ih =>
    intro acc hacc
    show batchProbeLoop t rest (probeStep t acc n) = _
    cases hg : get (CacheKey n.hash t.targetLang) with
    | some v =>
      have hstep : probeStep t acc n =
          { translations := mapUpd acc.translations n.hash v,
            cacheMisses := acc.cacheMisses, seenHashes := acc.seenHashes,
            cachedCount := acc.cachedCount + 1 } := by
        unfold probeStep
        rw [hc]
        dsimp only
        rw [hg]
      by_cases hk : hasKey acc.translations n.hash
      · have hmem : memStr n.hash (acc.translations.map (·.1)) = true := by
          rw [memStr_map_fst]
          exact hk
        have hupd : mapUpd acc.translations n.hash v = acc.translations := by
          unfold mapUpd
          rw [if_pos hk]
          apply map_eq_self_of_mem
          intro p hp
          by_cases hpk : p.1 = n.hash
          · have hval := hacc p hp
            rw [hpk, hg] at hval
            rw [if_pos hpk]
            cases p with
            | mk a b =>
              dsimp only at hpk
              injection hval with hv
              rw [hpk, hv]
          · rw [if_neg hpk]
        rw [hstep, hupd]
        rw [ih { translations := acc.translations, cacheMisses := acc.cacheMisses,
                 seenHashes := acc.seenHashes, cachedCount := acc.cachedCount + 1 } hacc]
        rw [canonHits_cons_hit_skip _ _ _ _ _ _ hg hmem,
            canonMisses_cons_hit _ _ _ _ _ _ hg,
            countHits_cons_hit _ _ _ _ _ hg]
        simp [Nat.add_assoc]
      · have hmem : memStr n.hash (acc.translations.map (·.1)) = false := by
          rw [memStr_map_fst]
          exact Bool.eq_false_iff.mpr hk
        have hupd : mapUpd acc.translations n.hash v =
            acc.translations ++ [(n.hash, v)] := by
          unfold mapUpd
          rw [if_neg hk]
        have hacc2 : ∀ p ∈ acc.translations ++ [(n.hash, v)],
            get (CacheKey p.1 t.targetLang) = some p.2 := by
          intro p hp
          rcases List.mem_append.mp hp with h1 | h2
          · exact hacc p h1
          · rcases List.mem_singleton.mp h2 with rfl
            exact hg
        rw [hstep, hupd]
        rw [ih { translations := acc.translations ++ [(n.hash, v)],
                 cacheMisses := acc.cacheMisses, seenHashes := acc.seenHashes,
                 cachedCount := acc.cachedCount + 1 } hacc2]
        rw [canonHits_cons_hit_new _ _ _ _ _ _ hg hmem,
            canonMisses_cons_hit _ _ _ _ _ _ hg,
            countHits_cons_hit _ _ _ _ _ hg]
        simp [Nat.add_assoc]
    | none =>
      have hstep : probeStep t acc n = missStep acc n := by
        unfold probeStep
        rw [hc]
        dsimp only
        rw [hg]
      by_cases hs : memStr n.hash acc.seenHashes = true
      · have hstep2 : probeStep t acc n = acc := by
          rw [hstep]
          unfold missStep
          rw [if_pos hs]
        rw [hstep2, ih acc hacc]
        rw [canonHits_cons_miss _ _ _ _ _ hg,
            canonMisses_cons_miss_skip _ _ _ _ _ hg hs,
            countHits_cons_miss _ _ _ _ hg]
      · have hs2 : memStr n.hash acc.seenHashes = false := Bool.eq_false_iff.mpr hs
        have hstep2 : probeStep t acc n =
            { translations := acc.translations,
              cacheMisses := acc.cacheMisses ++ [n],
              seenHashes := acc.seenHashes ++ [n.hash],
              cachedCount := acc.cachedCount } := by
          rw [hstep]
          unfold missStep
          rw [if_neg hs]
        rw [hstep2]
        rw [ih { translations := acc.translations,
                 cacheMisses := acc.cacheMisses ++ [n],
                 seenHashes := acc.seenHashes ++ [n.hash],
                 cachedCount := acc.cachedCount } hacc]
        rw [canonHits_cons_miss _ _ _ _ _ hg,
            canonMisses_cons_miss_new _ _ _ _ _ hg hs2,
            countHits_cons_miss _ _ _ _ hg]
        simp [List.append_assoc]

/-- The whole sequential cache probe, in closed form. -/
theorem batchProbe_canon (t : Translator) (get : CacheGet) (hc : t.cache = some get)
    (nodes : List TextNode) :
    batchProbe t nodes =
      { translations := canonHits get t.targetLang nodes [],
        cacheMisses := canonMisses get t.targetLang nodes [],
        seenHashes := (canonMisses get t.targetLang nodes []).map (·.hash),
        cachedCount := countHits get t.targetLang nodes } := by
  have := batchProbeLoop_spec t get hc nodes
    { translations := [], cacheMisses := [], seenHashes := [], cachedCount := 0 }
    (by intro p hp; cases hp)
  simpa [batchProbe] using this

theorem distinctFrom_cons_skip (n : TextNode) (rest : List TextNode)
    (seen : List String) (hmem : memStr n.hash seen = true) :
    distinctFrom (n :: rest) seen = distinctFrom rest seen := by
  rw [distinctFrom.eq_def]
  dsimp only
  rw [hmem]
  simp

theorem distinctFrom_cons_new (n : TextNode) (rest : List TextNode)
    (seen : List String) (hmem : memStr n.hash seen = false) :
    distinctFrom (n :: rest) seen = n.hash :: distinctFrom rest (seen ++ [n.hash]) := by
  rw [distinctFrom.eq_def]
  dsimp only
  rw [hmem]
  simp

/-- Membership in the deduplicated hash list: exactly the fingerprints
of the nodes that are not already seen. -/
theorem distinctFrom_mem :
    ∀ (nodes : List TextNode) (seen : List String) (k : String),
      memStr k (distinctFrom nodes seen) =
        (memStr k (nodes.map (·.hash)) && !(memStr k seen)) := by
  intro nodes
  induction nodes with
  | nil => intro seen k; simp [distinctFrom, memStr]
  | cons n rest ih =>
    intro seen k
    by_cases hs : memStr n.hash seen = true
    · rw [distinctFrom_cons_skip n rest seen hs, ih seen k]
      by_cases hk : n.hash = k
      · subst hk
        rw [hs]
        simp [memStr]
      · simp only [List.map_cons, memStr, hk, Bool.false_eq_true, if_false]
    · have hs2 : memStr n.hash seen = false := Bool.eq_false_iff.mpr hs
      rw [distinctFrom_cons_new n rest seen hs2]
      by_cases hk : n.hash = k
      · subst hk
        simp [memStr, hs2]
      · simp only [memStr, hk, Bool.false_eq_true, if_false, List.map_cons]
        rw [ih (seen ++ [n.hash]) k, memStr_append]
        simp only [memStr, hk, Bool.false_eq_true, if_false]
        simp

/-- Every fingerprint of a member node appears in the hash list. -/
theorem memStr_map_hash_of_mem {nodes : List TextNode} {n : TextNode}
    (hn : n ∈ nodes) : memStr n.hash (nodes.map (·.hash)) = true := by
  induction nodes with
  | nil => cases hn
  | cons x rest ih =>
    rcases List.mem_cons.mp hn with h | h
    · subst h
      simp [memStr]
    · by_cases hx : x.hash = n.hash
      · simp [memStr, hx]
      · simp [memStr, hx, ih h]

/-- The hit entries the parallel fan-out collects, one lookup per
deduplicated fingerprint, agree with the canonical hit list, as long as
the two seen sets agree on cached fingerprints. -/
theorem filterMap_distinct_eq_canonHits (get : CacheGet) (tgt : String) :
    ∀ (nodes : List TextNode) (seen hitSeen : List String),
      (∀ h, (get (CacheKey h tgt)).isSome = true →
        memStr h seen = memStr h hitSeen) →
      (distinctFrom nodes seen).filterMap
          (fun h => (get (CacheKey h tgt)).map (fun v => (h, v))) =
        canonHits get tgt nodes hitSeen := by
  intro nodes
  induction nodes with
  | nil => intro seen hitSeen _; simp [distinctFrom, canonHits]
  | cons n rest ih =>
    intro seen hitSeen hinv
    cases hg : get (CacheKey n.hash tgt) with
    | some v =>
      have hsome : (get (CacheKey n.hash tgt)).isSome = true := by rw [hg]; rfl
      have heq := hinv n.hash hsome
      by_cases hs : memStr n.hash seen = true
      · rw [distinctFrom_cons_skip n rest seen hs,
            canonHits_cons_hit_skip get tgt n rest hitSeen v hg (heq ▸ hs)]
        exact ih seen hitSeen hinv
      · have hs2 : memStr n.hash seen = false := Bool.eq_false_iff.mpr hs
        rw [distinctFrom_cons_new n rest seen hs2,
            canonHits_cons_hit_new get tgt n rest hitSeen v hg (heq ▸ hs2)]
        simp only [List.filterMap_cons, hg, Option.map_some']
        refine congrArg _ ?_
        refine ih (seen ++ [n.hash]) (hitSeen ++ [n.hash]) ?_
        intro h hh
        rw [memStr_append, memStr_append, hinv h hh]
    | none =>
      by_cases hs : memStr n.hash seen = true
      · rw [distinctFrom_cons_skip n rest seen hs,
            canonHits_cons_miss get tgt n rest hitSeen hg]
        exact ih seen hitSeen hinv
      · have hs2 : memStr n.hash seen = false := Bool.eq_false_iff.mpr hs
        rw [distinctFrom_cons_new n rest seen hs2,
            canonHits_cons_miss get tgt n rest hitSeen hg]
        simp only [List.filterMap_cons, hg, Option.map_none']
        refine ih (seen ++ [n.hash]) hitSeen ?_
        intro h hh
        have hneq : ¬ (n.hash = h) := by
          intro hcon
          rw [← hcon, hg] at hh
          cases hh
        have hne : memStr h [n.hash] = false := by
          simp only [memStr]
          rw [if_neg hneq]
        rw [memStr_append, hne, hinv h hh]
        simp

/-- The missed fingerprints the parallel fan-out collects agree with
the fingerprints of the canonical miss list, as long as the two seen
sets agree on uncached fingerprints. -/
theorem filter_distinct_eq_canonMisses (get : CacheGet) (tgt : String) :
    ∀ (nodes : List TextNode) (seen missSeen : List String),
      (∀ h, (get (CacheKey h tgt)).isNone = true →
        memStr h seen = memStr h missSeen) →
      (distinctFrom nodes seen).filter (fun h => (get (CacheKey h tgt)).isNone) =
        (canonMisses get tgt nodes missSeen).map (·.hash) := by
  intro nodes
  induction nodes with
  | nil => intro seen missSeen _; simp [distinctFrom, canonMisses]
  | cons n rest ih =>
    intro seen missSeen hinv
    cases hg : get (CacheKey n.hash tgt) with
    | some v =>
      by_cases hs : memStr n.hash seen = true
      · rw [distinctFrom_cons_skip n rest seen hs,
            canonMisses_cons_hit get tgt n rest missSeen v hg]
        exact ih seen missSeen hinv
      · have hs2 : memStr n.hash seen = false := Bool.eq_false_iff.mpr hs
        rw [distinctFrom_cons_new n rest seen hs2,
            canonMisses_cons_hit get tgt n rest missSeen v hg]
        simp only [List.filter_cons, hg, Option.isNone_some, Bool.false_eq_true, if_false]
        refine ih (seen ++ [n.hash]) missSeen ?_
        intro h hh
        have hneq : ¬ (n.hash = h) := by
          intro hcon
          rw [← hcon, hg] at hh
          cases hh
        have hne : memStr h [n.hash] = false := by
          simp only [memStr]
          rw [if_neg hneq]
        rw [memStr_append, hne, hinv h hh]
        simp
    | none =>
      have hnone : (get (CacheKey n.hash tgt)).isNone = true := by rw [hg]; rfl
      have heq := hinv n.hash hnone
      by_cases hs : memStr n.hash seen = true
      · rw [distinctFrom_cons_skip n rest seen hs,
            canonMisses_cons_miss_skip get tgt n rest missSeen hg (heq ▸ hs)]
        exact ih seen missSeen hinv
      · have hs2 : memStr n.hash seen = false := Bool.eq_false_iff.mpr hs
        rw [distinctFrom_cons_new n rest seen hs2,
            canonMisses_cons_miss_new get tgt n rest missSeen hg (heq ▸ hs2)]
        simp only [List.filter_cons, hg, Option.isNone_none, if_true, List.map_cons]
        refine congrArg _ ?_
        refine ih (seen ++ [n.hash]) (missSeen ++ [n.hash]) ?_
        intro h hh
        rw [memStr_append, memStr_append, hinv h hh]

/-- The miss-list rebuild loop of the parallel lookup, in closed form:
it keeps the first node of every uncached fingerprint, in order. -/
theorem parallelMissLoop_spec (get : CacheGet) (tgt : String)
    (missedHashes : List String) :
    ∀ (nodes : List TextNode) (accM : List TextNode) (seenM : List String),
      (∀ n ∈ nodes, memStr n.hash missedHashes = (get (CacheKey n.hash tgt)).isNone) →
      parallelMissLoop missedHashes nodes (accM, seenM) =
        (accM ++ canonMisses get tgt nodes seenM,
         seenM ++ (canonMisses get tgt nodes seenM).map (·.hash)) := by
  intro nodes
  induction nodes with
  | nil => intro accM seenM _; simp [parallelMissLoop, canonMisses]
  | cons n rest ih =>
    intro accM seenM hinv
    have hn := hinv n (List.mem_cons_self _ _)
    have hrest : ∀ x ∈ rest, memStr x.hash missedHashes = (get (CacheKey x.hash tgt)).isNone :=
      fun x hx => hinv x (List.mem_cons_of_mem _ hx)
    show (if memStr n.hash missedHashes && !(memStr n.hash seenM) then
            parallelMissLoop missedHashes rest (accM ++ [n], seenM ++ [n.hash])
          else parallelMissLoop missedHashes rest (accM, seenM)) = _
    cases hg : get (CacheKey n.hash tgt) with
    | some v =>
      have hmh : memStr n.hash missedHashes = false := by
        rw [hn, hg]
        rfl
      rw [hmh]
      simp only [Bool.false_and, Bool.false_eq_true, if_false]
      rw [ih accM seenM hrest,
          canonMisses_cons_hit get tgt n rest seenM v hg]
    | none =>
      have hmh : memStr n.hash missedHashes = true := by
        rw [hn, hg]
        rfl
      rw [hmh]
      by_cases hs : memStr n.hash seenM = true
      · rw [hs]
        simp only [Bool.not_true, Bool.and_false, Bool.false_eq_true, if_false]
        rw [ih accM seenM hrest,
            canonMisses_cons_miss_skip get tgt n rest seenM hg hs]
      · have hs2 : memStr n.hash seenM = false := Bool.eq_false_iff.mpr hs
        rw [hs2]
        simp only [Bool.not_false, Bool.and_true, Bool.true_and, if_true]
        rw [ih (accM ++ [n]) (seenM ++ [n.hash]) hrest,
            canonMisses_cons_miss_new get tgt n rest seenM hg hs2]
        simp [List.append_assoc]

/-- The parallel cache lookup, in closed form: the canonical hit map
and the canonical miss list. -/
theorem ParallelCacheLookup_canon (get : CacheGet) (tgt : String)
    (nodes : List TextNode) :
    ParallelCacheLookup (some get) nodes tgt =
      (canonHits get tgt nodes [], canonMisses get tgt nodes []) := by
  unfold ParallelCacheLookup
  dsimp only
  by_cases hempty : nodes.length = 0
  · rw [if_pos hempty]
    rcases List.length_eq_zero.mp hempty with rfl
    simp [canonHits, canonMisses]
  · rw [if_neg hempty]
    refine Prod.ext ?_ ?_
    · dsimp only
      exact filterMap_distinct_eq_canonHits get tgt nodes [] [] (fun h _ => rfl)
    · dsimp only
      have hmiss : ∀ n ∈ nodes,
          memStr n.hash ((distinctHashes nodes).filter
            (fun h => (get (CacheKey h tgt)).isNone)) =
            (get (CacheKey n.hash tgt)).isNone := by
        intro n hn
        rw [memStr_filter]
        unfold distinctHashes
        rw [distinctFrom_mem nodes [] n.hash]
        rw [memStr_map_hash_of_mem hn]
        simp [memStr]
      rw [parallelMissLoop_spec get tgt _ nodes [] [] hmiss]
      simp

/-- The number of distinct cached fingerprints is at most the number of
cache-hit units. -/
theorem canonHits_length_le (get : CacheGet) (tgt : String) :
    ∀ (nodes : List TextNode) (hitSeen : List String),
      (canonHits get tgt nodes hitSeen).length ≤ countHits get tgt nodes := by
  intro nodes
  induction nodes with
  | nil => intro hitSeen; simp [canonHits, countHits]
  | cons n rest ih =>
    intro hitSeen
    cases hg : get (CacheKey n.hash tgt) with
    | some v =>
      rw [countHits_cons_hit get tgt n rest v hg]
      by_cases hs : memStr n.hash hitSeen = true
      · rw [canonHits_cons_hit_skip get tgt n rest hitSeen v hg hs]
        have := ih hitSeen
        omega
      · rw [canonHits_cons_hit_new get tgt n rest hitSeen v hg (Bool.eq_false_iff.mpr hs)]
        have := ih (hitSeen ++ [n.hash])
        simp only [List.length_cons]
        omega
    | none =>
      rw [countHits_cons_miss get tgt n rest hg,
          canonHits_cons_miss get tgt n rest hitSeen hg]
      exact ih hitSeen

/-- With pairwise distinct fingerprints, every cache-hit unit
contributes its own entry: the two counts agree. -/
theorem canonHits_length_eq_of_nodup (get : CacheGet) (tgt : String) :
    ∀ (nodes : List TextNode) (hitSeen : List String),
      (nodes.map (·.hash)).Nodup →
      (∀ n ∈ nodes, memStr n.hash hitSeen = false) →
      (canonHits get tgt nodes hitSeen).length = countHits get tgt nodes := by
  intro nodes
  induction nodes with
  | nil => intro hitSeen _ _; simp [canonHits, countHits]
  | cons n rest ih =>
    intro hitSeen hnodup hfresh
    simp only [List.map_cons, List.nodup_cons] at hnodup
    have hfreshrest : ∀ x ∈ rest, memStr x.hash (hitSeen ++ [n.hash]) = false := by
      intro x hx
      rw [memStr_append, hfresh x (List.mem_cons_of_mem _ hx)]
      simp only [Bool.false_or, memStr]
      by_cases hxn : n.hash = x.hash
      · exact absurd (hxn ▸ List.mem_map_of_mem (·.hash) hx) hnodup.1
      · simp [hxn, memStr]
    cases hg : get (CacheKey n.hash tgt) with
    | some v =>
      rw [countHits_cons_hit get tgt n rest v hg,
          canonHits_cons_hit_new get tgt n rest hitSeen v hg
            (hfresh n (List.mem_cons_self _ _))]
      simp only [List.length_cons]
      rw [ih (hitSeen ++ [n.hash]) hnodup.2 hfreshrest]
      omega
    | none =>
      rw [countHits_cons_miss get tgt n rest hg,
          canonHits_cons_miss get tgt n rest hitSeen hg]
      exact ih hitSeen hnodup.2 (fun x hx => hfresh x (List.mem_cons_of_mem _ hx))

/-- C3 amended: at or above the threshold with a cache configured, and
for every backend whose result does not depend on the glossary and
style fields — the parallel path omits them from its request — the
parallel and the sequential path agree on the hit map, the ordered
first-occurrence miss list, the translatedCount, the error or panic
outcome, and the core fields of the dispatched request; they differ
exactly in cachedCount, which the parallel path computes as the number
of distinct cached fingerprints (never more than the sequential
per-unit hit count) while the sequential path counts cache-hit units —
so the full results coincide whenever the units' fingerprints are
pairwise distinct. -/
theorem c3_parallel_sequential_amended (pt : ParallelTranslator)
    (nodes : List TextNode) (get : CacheGet)
    (hc : pt.toTranslator.cache = some get)
    (hth : pt.parallelThreshold ≤ nodes.length)
    (hf : ∀ f, pt.toTranslator.provider = some f →
      ∀ r1 r2 : TranslateRequest, reqCore r1 = reqCore r2 → f r1 = f r2) :
    (ParallelCacheLookup pt.toTranslator.cache nodes pt.toTranslator.targetLang).1
      = (batchProbe pt.toTranslator nodes).translations
    ∧ (ParallelCacheLookup pt.toTranslator.cache nodes pt.toTranslator.targetLang).2
      = (batchProbe pt.toTranslator nodes).cacheMisses
    ∧ (TranslateBatchParallel pt nodes).1
      = setCachedCount
          (ParallelCacheLookup pt.toTranslator.cache nodes pt.toTranslator.targetLang).1.length
          (translateBatch pt.toTranslator nodes).1
    ∧ (TranslateBatchParallel pt nodes).2.map reqCore
      = (translateBatch pt.toTranslator nodes).2.map reqCore
    ∧ (ParallelCacheLookup pt.toTranslator.cache nodes pt.toTranslator.targetLang).1.length
        ≤ (batchProbe pt.toTranslator nodes).cachedCount
    ∧ ((nodes.map (·.hash)).Nodup →
        (TranslateBatchParallel pt nodes).1 = (translateBatch pt.toTranslator nodes).1) := by
  have hpar : ParallelCacheLookup pt.toTranslator.cache nodes pt.toTranslator.targetLang =
      (canonHits get pt.toTranslator.targetLang nodes [],
       canonMisses get pt.toTranslator.targetLang nodes []) := by
    rw [hc]
    exact ParallelCacheLookup_canon get pt.toTranslator.targetLang nodes
  have hprobe := batchProbe_canon pt.toTranslator get hc nodes
  have hP1 : (ParallelCacheLookup pt.toTranslator.cache nodes pt.toTranslator.targetLang).1 =
      canonHits get pt.toTranslator.targetLang nodes [] := by rw [hpar]
  have hP2 : (ParallelCacheLookup pt.toTranslator.cache nodes pt.toTranslator.targetLang).2 =
      canonMisses get pt.toTranslator.targetLang nodes [] := by rw [hpar]
  have hpT : (batchProbe pt.toTranslator nodes).translations =
      canonHits get pt.toTranslator.targetLang nodes [] := by rw [hprobe]
  have hpM : (batchProbe pt.toTranslator nodes).cacheMisses =
      canonMisses get pt.toTranslator.targetLang nodes [] := by rw [hprobe]
  have hpC : (batchProbe pt.toTranslator nodes).cachedCount =
      countHits get pt.toTranslator.targetLang nodes := by rw [hprobe]
  have hcond : (pt.toTranslator.cache.isNone
      || decide (nodes.length < pt.parallelThreshold)) = false := by
    rw [hc]
    simp only [Option.isNone_some, Bool.false_or, decide_eq_false_iff_not, not_lt]
    exact hth
  have hmain : (TranslateBatchParallel pt nodes).1
      = setCachedCount
          (canonHits get pt.toTranslator.targetLang nodes []).length
          (translateBatch pt.toTranslator nodes).1
    ∧ (TranslateBatchParallel pt nodes).2.map reqCore
      = (translateBatch pt.toTranslator nodes).2.map reqCore := by
    cases hprov : pt.toTranslator.provider with
    | none =>
      have hseq : translateBatch pt.toTranslator nodes =
          (.ok (canonHits get pt.toTranslator.targetLang nodes [],
                countHits get pt.toTranslator.targetLang nodes, 0), []) := by
        unfold translateBatch
        rw [hprov, hpT, hpC]
      have hparr : TranslateBatchParallel pt nodes =
          (.ok (canonHits get pt.toTranslator.targetLang nodes [],
                (canonHits get pt.toTranslator.targetLang nodes []).length, 0), []) := by
        unfold TranslateBatchParallel
        rw [hcond]
        simp only [Bool.false_eq_true, if_false]
        rw [hprov]
        dsimp only
        rw [hP1]
      rw [hseq, hparr]
      exact ⟨rfl, rfl⟩
    | some f =>
      by_cases hm : (canonMisses get pt.toTranslator.targetLang nodes []).length = 0
      · have hseq : translateBatch pt.toTranslator nodes =
            (.ok (canonHits get pt.toTranslator.targetLang nodes [],
                  countHits get pt.toTranslator.targetLang nodes, 0), []) := by
          unfold translateBatch
          rw [hprov]
          dsimp only
          rw [hpM, hpT, hpC, if_neg (fun hcon => hcon hm)]
        have hparr : TranslateBatchParallel pt nodes =
            (.ok (canonHits get pt.toTranslator.targetLang nodes [],
                  (canonHits get pt.toTranslator.targetLang nodes []).length, 0), []) := by
          unfold TranslateBatchParallel
          rw [hcond]
          simp only [Bool.false_eq_true, if_false]
          rw [hprov]
          dsimp only
          rw [hP1, hP2, if_neg (fun hcon => hcon hm)]
        rw [hseq, hparr]
        exact ⟨rfl, rfl⟩
      · have hfr : f (buildRequestParallel pt.toTranslator
            (canonMisses get pt.toTranslator.targetLang nodes [])) =
            f (buildRequest pt.toTranslator
              (canonMisses get pt.toTranslator.targetLang nodes [])) :=
          hf f hprov _ _ rfl
        cases hres : f (buildRequest pt.toTranslator
            (canonMisses get pt.toTranslator.targetLang nodes [])) with
        | error e =>
          have hseq : translateBatch pt.toTranslator nodes =
              (.err e, [buildRequest pt.toTranslator
                 (canonMisses get pt.toTranslator.targetLang nodes [])]) := by
            unfold translateBatch
            rw [hprov]
            dsimp only
            rw [hpM, hpT, hpC, if_pos hm, hres]
          have hparr : TranslateBatchParallel pt nodes =
              (.err e, [buildRequestParallel pt.toTranslator
                 (canonMisses get pt.toTranslator.targetLang nodes [])]) := by
            unfold TranslateBatchParallel
            rw [hcond]
            simp only [Bool.false_eq_true, if_false]
            rw [hprov]
            dsimp only
            rw [hP1, hP2, if_pos hm, hfr, hres]
          rw [hseq, hparr]
          exact ⟨rfl, rfl⟩
        | ok results =>
          by_cases hlen : results.length <
              (canonMisses get pt.toTranslator.targetLang nodes []).length
          · have hseq : translateBatch pt.toTranslator nodes =
                (.panic "index out of range",
                 [buildRequest pt.toTranslator
                    (canonMisses get pt.toTranslator.targetLang nodes [])]) := by
              unfold translateBatch
              rw [hprov]
              dsimp only
              rw [hpM, hpT, hpC, if_pos hm, hres]
              dsimp only
              rw [if_pos hlen]
            have hparr : TranslateBatchParallel pt nodes =
                (.panic "index out of range",
                 [buildRequestParallel pt.toTranslator
                    (canonMisses get pt.toTranslator.targetLang nodes [])]) := by
              unfold TranslateBatchParallel
              rw [hcond]
              simp only [Bool.false_eq_true, if_false]
              rw [hprov]
              dsimp only
              rw [hP1, hP2, if_pos hm, hfr, hres]
              dsimp only
              rw [if_pos hlen]
            rw [hseq, hparr]
            exact ⟨rfl, rfl⟩
          · have hseq : translateBatch pt.toTranslator nodes =
                (.ok (applyResults (canonHits get pt.toTranslator.targetLang nodes [])
                        (canonMisses get pt.toTranslator.targetLang nodes []) results,
                      countHits get pt.toTranslator.targetLang nodes,
                      (canonMisses get pt.toTranslator.targetLang nodes []).length),
                 [buildRequest pt.toTranslator
                    (canonMisses get pt.toTranslator.targetLang nodes [])]) := by
              unfold translateBatch
              rw [hprov]
              dsimp only
              rw [hpM, hpT, hpC, if_pos hm, hres]
              dsimp only
              rw [if_neg hlen]
            have hparr : TranslateBatchParallel pt nodes =
                (.ok (applyResults (canonHits get pt.toTranslator.targetLang nodes [])
                        (canonMisses get pt.toTranslator.targetLang nodes []) results,
                      (canonHits get pt.toTranslator.targetLang nodes []).length,
                      (canonMisses get pt.toTranslator.targetLang nodes []).length),
                 [buildRequestParallel pt.toTranslator
                    (canonMisses get pt.toTranslator.targetLang nodes [])]) := by
              unfold TranslateBatchParallel
              rw [hcond]
              simp only [Bool.false_eq_true, if_false]
              rw [hprov]
              dsimp only
              rw [hP1, hP2, if_pos hm, hfr, hres]
              dsimp only
              rw [if_neg hlen]
            rw [hseq, hparr]
            exact ⟨rfl, rfl⟩
  refine ⟨hP1.trans hpT.symm, hP2.trans hpM.symm, ?_, hmain.2, ?_, ?_⟩
  · rw [hP1]
    exact hmain.1
  · rw [hP1, hpC]
    exact canonHits_length_le get pt.toTranslator.targetLang nodes []
  · intro hnodup
    have hCeq : (canonHits get pt.toTranslator.targetLang nodes []).length =
        countHits get pt.toTranslator.targetLang nodes :=
      canonHits_length_eq_of_nodup get pt.toTranslator.targetLang nodes []
        hnodup (fun n _ => rfl)
    rcases htb : translateBatch pt.toTranslator nodes with ⟨res, rq⟩
    have h3 : (TranslateBatchParallel pt nodes).1 =
        setCachedCount (canonHits get pt.toTranslator.targetLang nodes []).length res := by
      rw [hmain.1, htb]
    cases res with
    | ok triple =>
      rcases triple with ⟨mm, cc, tcc⟩
      have hcc : cc = (batchProbe pt.toTranslator nodes).cachedCount :=
        (translateBatch_ok_counts pt.toTranslator nodes mm cc tcc rq htb).2
      rw [hpC] at hcc
      rw [h3]
      show GoResult.ok (mm, (canonHits get pt.toTranslator.targetLang nodes []).length, tcc)
          = GoResult.ok (mm, cc, tcc)
      rw [hCeq, ← hcc]
    | err e =>
      rw [h3]
      rfl
    | panic msg =>
      rw [h3]
      rfl

/-- Witness for C3 amended, at two distinct-fingerprint units, one
cached, with a backend echoing the request texts: the parallel and
sequential paths return identical results, and the parallel hit count
is bounded by the sequential one. -/
theorem c3_witness :
    (TranslateBatchParallel pt3 [m1, m2]).1 = (translateBatch t3 [m1, m2]).1
    ∧ (ParallelCacheLookup t3.cache [m1, m2] t3.targetLang).1.length
        ≤ (batchProbe t3 [m1, m2]).cachedCount := by
  have hf : ∀ f, pt3.toTranslator.provider = some f →
      ∀ r1 r2 : TranslateRequest, reqCore r1 = reqCore r2 → f r1 = f r2 := by
    intro f hfeq r1 r2 hcore
    injection hfeq with hfe
    subst hfe
    exact congrArg (fun ts => (Except.ok ts : Except GoError (List String)))
      (congrArg (fun c => c.1) hcore)
  have h := c3_parallel_sequential_amended pt3 [m1, m2] get3 rfl (by decide) hf
  exact ⟨h.2.2.2.2.2 (by decide), h.2.2.2.2.1⟩

end Gotlai
